import Mathlib

/-!
# OpenCensus → CloudWatch exporter

A shallow embedding of `exporter/exporter.go` and of the mock client of
`exporter/exporter_test.go`, followed by the properties established about them.

Conventions of the embedding
* a Go pointer or interface value that may be nil is an `Option`; the
  `*view.Data`, `*view.View` and `*view.Row` the collection library hands to
  the exporter are never nil and are taken by value;
* a Go slice is a `Slice`: `none` is the nil slice, `some l` a non-nil slice;
* a Go `string` handed to `regexp` is read as the sequence of runes the
  matcher decodes from it (a byte that is not valid UTF-8 decodes to U+FFFD,
  a rune outside every range of the pattern);
* `float64` is kept as its IEEE-754 binary64 bit pattern;
* code with effects (the CloudWatch client, the `OnError` callback, the AWS
  session) passes an explicit world state of type `ω`.
-/

namespace Exporter

/-! ## Go values -/

/-- Go `error` value, identified by the text its `Error()` method returns. -/
structure GoError where
  msg : String
deriving DecidableEq, Repr

/-- Go slice: `none` is the nil slice, `some l` is a non-nil slice holding `l`. -/
abbrev Slice (α : Type) := Option (List α)

/-- Go builtin `append(s, x)`: the result is never nil. -/
def goAppend {α : Type} (s : Slice α) (x : α) : Slice α :=
  match s with
  | none => some [x]
  | some l => some (l ++ [x])

/-- Go `float64`, kept as its IEEE-754 binary64 bit pattern (sign bit 63,
exponent bits 62..52, fraction bits 51..0). -/
structure Float64 where
  bits : Nat
deriving DecidableEq, Repr

/-- Position of the highest set bit of `m`, looking at no more than `width`
bits: `2 ^ topBit width m ≤ m < 2 ^ (topBit width m + 1)` for `0 < m < 2 ^ width`. -/
def topBit : Nat → Nat → Nat
  | 0, _ => 0
  | width + 1, m => if m < 2 then 0 else topBit width (m / 2) + 1

/-- Go conversion `float64(v)` of an `int64` value `v` (so `|v| ≤ 2^63`): the
nearest binary64 value, ties to even.  For `|v| < 2^53` the conversion is
exact. -/
def float64OfInt64 (v : Int) : Float64 :=
  if v = 0 then ⟨0⟩
  else
    let s : Nat := if v < 0 then 1 else 0
    let m : Nat := v.natAbs
    let e : Nat := topBit 64 m
    if e ≤ 52 then
      ⟨s * 2 ^ 63 + (e + 1023) * 2 ^ 52 + (m * 2 ^ (52 - e) - 2 ^ 52)⟩
    else
      let sh : Nat := e - 52
      let q : Nat := m / 2 ^ sh
      let r : Nat := m % 2 ^ sh
      let half : Nat := 2 ^ (sh - 1)
      let q1 : Nat := if half < r ∨ (r = half ∧ q % 2 = 1) then q + 1 else q
      ⟨s * 2 ^ 63 + (e + 1023) * 2 ^ 52 + (q1 - 2 ^ 52)⟩

/-- The binary64 value `1.0`, that is `0x3FF0000000000000`. -/
def float64One : Float64 := ⟨0x3FF0000000000000⟩

/-! ## `go.opencensus.io/tag` -/

namespace tag

/-- Type `tag.Key`: a key is its name. -/
structure Key where
  name : String
deriving DecidableEq, Repr

/-- Method `Key.Name()`. -/
def Key.Name (k : Key) : String := k.name

/-- Type `tag.Tag`: a key and the value recorded for it. -/
structure Tag where
  Key : Key
  Value : String
deriving DecidableEq, Repr

end tag

/-! ## `go.opencensus.io/stats/view` -/

namespace view

/-- Type `view.AggType` with the constants `AggTypeNone` .. `AggTypeLastValue`. -/
inductive AggType where
  | AggTypeNone
  | AggTypeCount
  | AggTypeSum
  | AggTypeDistribution
  | AggTypeLastValue
deriving DecidableEq, Repr

/-- Method `AggType.String()`: the name of the aggregation kind. -/
def AggType.String : AggType → String
  | .AggTypeNone => "None"
  | .AggTypeCount => "Count"
  | .AggTypeSum => "Sum"
  | .AggTypeDistribution => "Distribution"
  | .AggTypeLastValue => "LastValue"

/-- Type `view.Aggregation`: the kind of aggregation of a view and, for a
distribution, its bucket boundaries. -/
structure Aggregation where
  aggType : AggType
  Buckets : List Float64
deriving DecidableEq, Repr

/-- Type `view.DistributionData`. -/
structure DistributionData where
  Count : Int
  Min : Float64
  Max : Float64
  Mean : Float64
  SumOfSquaredDev : Float64
  CountPerBucket : List Int
deriving DecidableEq, Repr

/-- Interface `view.AggregationData` as the type switch of `buildMetricDataRow`
sees it: one constructor per case of the switch.  `Other` stands for every
value that reaches the `default` case (a nil interface value, or any further
implementation), and carries the name of its dynamic type. -/
inductive AggregationData where
  | CountData (Value : Int)
  | DistributionData (d : DistributionData)
  | SumData (Value : Float64)
  | LastValueData (Value : Float64)
  | Other (dynamicType : String)
deriving DecidableEq, Repr

/-- Type `view.View`, with the fields the exporter reads. -/
structure View where
  Name : String
  Aggregation : Option Aggregation
deriving DecidableEq, Repr

/-- Type `view.Row`. -/
structure Row where
  Tags : List tag.Tag
  Data : AggregationData
deriving DecidableEq, Repr

/-- Type `view.Data`: a view and its rows at export time. -/
structure Data where
  View : View
  Rows : List Row
deriving DecidableEq, Repr

end view

/-! ## `github.com/aws/aws-sdk-go/service/cloudwatch` -/

namespace cloudwatch

/-- Type `cloudwatch.Dimension`; both fields are `*string`. -/
structure Dimension where
  Name : Option String
  Value : Option String
deriving DecidableEq, Repr

/-- Type `cloudwatch.MetricDatum`, with the fields the exporter sets; every
other field keeps its zero value in all data built here. -/
structure MetricDatum where
  MetricName : Option String
  Unit : Option String
  Value : Option Float64
  Dimensions : Slice Dimension
deriving DecidableEq, Repr

/-- Type `cloudwatch.PutMetricDataInput`. -/
structure PutMetricDataInput where
  Namespace : Option String
  MetricData : Slice (Option MetricDatum)
deriving DecidableEq, Repr

end cloudwatch

/-- Helpers `aws.String` and `aws.Float64`: a non-nil pointer to the value. -/
def awsPtr {α : Type} (x : α) : Option α := some x

/-! ## `sanitize` -/

/-- The three ranges listed in the pattern `[^a-zA-Z0-9]+`. -/
def classRanges : List (Char × Char) := [('a', 'z'), ('A', 'Z'), ('0', '9')]

/-- A rune matches the negated class `[^a-zA-Z0-9]` when it lies in none of the
listed ranges. -/
def inClass (c : Char) : Bool :=
  !(classRanges.any fun r => decide (r.1 ≤ c) && decide (c ≤ r.2))

/-- Method `Regexp.ReplaceAllString` for the pattern `[^a-zA-Z0-9]+` and a
replacement text without `$`, as one left-to-right scan.  A match starts at the
first rune of the negated class and, `+` being greedy, extends over all the
runes of the class that follow; `inMatch` tells that the previous rune belongs
to the match already replaced.  Runes outside a match are copied. -/
def replaceAll (repl : List Char) : Bool → List Char → List Char
  | _, [] => []
  | inMatch, c :: cs =>
    if inClass c then
      if inMatch then replaceAll repl true cs else repl ++ replaceAll repl true cs
    else c :: replaceAll repl false cs

/-- Function `sanitize`: `regexp.Compile` succeeds on the constant pattern, so
the result is `reg.ReplaceAllString(text, "_")`. -/
def sanitize (text : String) : String :=
  String.mk (replaceAll ['_'] false text.data)

/-! ## Translation of a view into metric data -/

/-- Function `dimensionsFromTags`: starts from the empty non-nil slice and
appends one dimension per tag. -/
def dimensionsFromTags (tags : List tag.Tag) : Slice cloudwatch.Dimension :=
  tags.foldl
    (fun dimensions t =>
      goAppend dimensions
        { Name := awsPtr t.Key.Name, Value := awsPtr t.Value })
    (some [])

/-- Verb `%T` applied to `vd.Aggregation`.  The operand has the declared
pointer type `*view.Aggregation`, so its dynamic type is that type whatever it
points to, nil included, and `%T` prints the name of that type. -/
def fmtTypeOf (_ : Option view.Aggregation) : String := "*view.Aggregation"

/-- Call `fmt.Errorf("aggregation %T is not yet supported", vd.Aggregation)`. -/
def notYetSupported (agg : Option view.Aggregation) : GoError :=
  ⟨"aggregation " ++ fmtTypeOf agg ++ " is not yet supported"⟩

/-- Function `buildMetricDataRow`: the pair `(datum, err)` it returns. -/
def buildMetricDataRow (vd : view.View) (row : view.Row) :
    Option cloudwatch.MetricDatum × Option GoError :=
  let dimensions := dimensionsFromTags row.Tags
  let metricName := sanitize vd.Name
  match row.Data with
  | .CountData value =>
    (some { MetricName := awsPtr metricName
            Unit := awsPtr "None"
            Value := awsPtr (float64OfInt64 value)
            Dimensions := dimensions }, none)
  | .DistributionData _ => (none, some (notYetSupported vd.Aggregation))
  | .SumData value =>
    (some { MetricName := awsPtr metricName
            Unit := awsPtr "None"
            Value := awsPtr value
            Dimensions := dimensions }, none)
  | .LastValueData value =>
    (some { MetricName := awsPtr metricName
            Unit := awsPtr "None"
            Value := awsPtr value
            Dimensions := dimensions }, none)
  | .Other _ => (none, some (notYetSupported vd.Aggregation))

/-- Function `buildMetricData`: the error of each row is dropped and the
datum, nil or not, is appended. -/
def buildMetricData (vd : view.Data) : Slice (Option cloudwatch.MetricDatum) :=
  vd.Rows.foldl
    (fun metricData row =>
      let metricDataRow := (buildMetricDataRow vd.View row).1
      goAppend metricData metricDataRow)
    (some [])

/-! ## The exporter -/

/-- Interface `cloudwatchiface.CloudWatchAPI`, with the one method the exporter
calls.  A call reads and changes the world `ω`; the output value is not used by
the exporter and only the returned error is kept. -/
structure CloudWatchAPI (ω : Type) where
  PutMetricData : cloudwatch.PutMetricDataInput → ω → Option GoError × ω

/-- Type `Options`.  `OnError` is nil (`none`) or a function run for its effect
on the world. -/
structure Options (ω : Type) where
  Namespace : String
  OnError : Option (GoError → ω → ω)
  UseSharedAwsConfig : Bool
  UseEnvCredentials : Bool
  Region : String

/-- Type `cloudWatchExporter`. -/
structure cloudWatchExporter (ω : Type) where
  opts : Options ω
  cwapi : CloudWatchAPI ω

/-- Method `putMetricsFromView`. -/
def putMetricsFromView {ω : Type} (ce : cloudWatchExporter ω) (vd : view.Data) (w : ω) :
    Option GoError × ω :=
  let metricData := buildMetricData vd
  ce.cwapi.PutMetricData
    { Namespace := some ce.opts.Namespace, MetricData := metricData } w

/-- Method `ExportView`: it returns nothing, so the result is the world after
the call. -/
def ExportView {ω : Type} (ce : cloudWatchExporter ω) (vd : view.Data) (w : ω) : ω :=
  let (err, w1) := putMetricsFromView ce vd w
  match err, ce.opts.OnError with
  | some e, some onError => onError e w1
  | _, _ => w1

/-! ### Observing the calls an exporter makes -/

/-- A call made by the exporter to one of its two collaborators. -/
inductive Call where
  | PutMetricData (request : cloudwatch.PutMetricDataInput)
  | OnError (err : GoError)
deriving DecidableEq, Repr

/-- The same exporter with every call to the client and to the callback
logged, in order, next to the world.  The collaborators behave as before. -/
def traced {ω : Type} (ce : cloudWatchExporter ω) : cloudWatchExporter (ω × List Call) where
  opts :=
    { Namespace := ce.opts.Namespace
      OnError := ce.opts.OnError.map fun onError e wl =>
        (onError e wl.1, wl.2 ++ [Call.OnError e])
      UseSharedAwsConfig := ce.opts.UseSharedAwsConfig
      UseEnvCredentials := ce.opts.UseEnvCredentials
      Region := ce.opts.Region }
  cwapi :=
    { PutMetricData := fun request wl =>
        let r := ce.cwapi.PutMetricData request wl.1
        (r.1, (r.2, wl.2 ++ [Call.PutMetricData request])) }

/-- The calls made by `ExportView`, in order, when run from world `w`. -/
def callsOfExportView {ω : Type} (ce : cloudWatchExporter ω) (vd : view.Data) (w : ω) :
    List Call :=
  (ExportView (traced ce) vd (w, [])).2

/-! ### The client of the test suite -/

/-- Type `mockedReceiveMsgs` of the tests: the world is its `requests` slice;
`PutMetricData` appends the request and returns `nil, nil`. -/
def mockedReceiveMsgs : CloudWatchAPI (Slice cloudwatch.PutMetricDataInput) where
  PutMetricData := fun request requests => (none, goAppend requests request)

/-! ## Construction -/

namespace session

/-- Type `session.SharedConfigState` and its three constants. -/
inductive SharedConfigState where
  | SharedConfigStateFromEnv
  | SharedConfigDisable
  | SharedConfigEnable
deriving DecidableEq, Repr

end session

/-- Type `credentials.Credentials` as far as the exporter builds it. -/
inductive Credentials where
  | NewEnvCredentials
deriving DecidableEq, Repr

/-- Type `aws.Config`, with the fields the exporter sets. -/
structure AwsConfig where
  Region : Option String
  Credentials : Option Credentials
deriving DecidableEq, Repr

/-- Type `session.Options`; the zero value is `sessionOptionsZero`. -/
structure SessionOptions where
  Config : AwsConfig
  SharedConfigState : session.SharedConfigState
deriving DecidableEq, Repr

/-- Literal `session.Options{}`. -/
def sessionOptionsZero : SessionOptions :=
  { Config := { Region := none, Credentials := none }
    SharedConfigState := .SharedConfigStateFromEnv }

/-- The two SDK entry points `New` calls: `session.NewSessionWithOptions`,
which reads the environment and may fail, and `cloudwatch.New`. -/
structure AwsSdk (ω Sess : Type) where
  NewSessionWithOptions : SessionOptions → ω → Except GoError Sess × ω
  cloudwatchNew : Sess → ω → CloudWatchAPI ω × ω

/-- How a Go call ends: it returns a value or it panics. -/
inductive GoResult (α : Type) where
  | returned (a : α)
  | panicked (e : GoError)

/-- Function `New`.  The result pairs the exporter (nil or not) with the error
(nil or not); `session.Must` panics on a session error. -/
def New {ω Sess : Type} (sdk : AwsSdk ω Sess) (opts : Options ω) (w : ω) :
    GoResult (Option (cloudWatchExporter ω) × Option GoError) × ω :=
  let sessionOpts := sessionOptionsZero
  let checked : Except GoError SessionOptions :=
    if opts.UseSharedAwsConfig then
      .ok { sessionOpts with SharedConfigState := .SharedConfigEnable }
    else if opts.UseEnvCredentials then
      .ok { sessionOpts with
              Config := { Region := awsPtr opts.Region
                          Credentials := some .NewEnvCredentials } }
    else
      .error ⟨"One of \"UseSharedAwsConfig,UseEnvCredentials\" must be specified"⟩
  match checked with
  | .error err => (.returned (none, some err), w)
  | .ok sessionOpts =>
    match sdk.NewSessionWithOptions sessionOpts w with
    | (.error err, w1) => (.panicked err, w1)
    | (.ok sess, w1) =>
      let (cwapi, w2) := sdk.cloudwatchNew sess w1
      (.returned (some { opts := opts, cwapi := cwapi }, none), w2)

/-! ## Reference definitions used by the properties -/

/-- Sign bit of a binary64 pattern. -/
def Float64.sign (f : Float64) : Nat := f.bits / 2 ^ 63

/-- Biased exponent field of a binary64 pattern. -/
def Float64.exponent (f : Float64) : Nat := f.bits / 2 ^ 52 % 2 ^ 11

/-- Fraction field of a binary64 pattern. -/
def Float64.fraction (f : Float64) : Nat := f.bits % 2 ^ 52

/-- A 64-bit pattern that denotes a number: its exponent field is not all ones. -/
def Float64.isFinite (f : Float64) : Bool :=
  decide (f.bits < 2 ^ 64) && decide (f.exponent < 2047)

/-- The magnitude a finite binary64 pattern denotes (IEEE 754): the fraction
scaled by `2^-1074` for a subnormal, `(2^52 + fraction) * 2^(exponent - 1075)`
otherwise. -/
def Float64.magnitude (f : Float64) : ℚ :=
  if f.exponent = 0 then (f.fraction : ℚ) * 2 ^ (-1074 : ℤ)
  else ((2 ^ 52 + f.fraction : ℕ) : ℚ) * 2 ^ ((f.exponent : ℤ) - 1075)

/-- The number a finite binary64 pattern denotes. -/
def Float64.toRat (f : Float64) : ℚ :=
  if f.sign % 2 = 1 then -f.magnitude else f.magnitude

/-- Reference for the conversion of an integer to `float64`, following IEEE 754
round-to-nearest, ties-to-even: `f` is a finite pattern with the sign of `v`,
no finite pattern denotes a number nearer to `v`, and when another number is
as near, the last fraction bit of `f` is zero. -/
def IsNearestEven (f : Float64) (v : Int) : Prop :=
  f.isFinite = true ∧
  f.sign = (if v < 0 then 1 else 0) ∧
  (∀ g : Float64, g.isFinite = true → |f.toRat - v| ≤ |g.toRat - v|) ∧
  (∀ g : Float64, g.isFinite = true → g.toRat ≠ f.toRat →
    |g.toRat - v| = |f.toRat - v| → f.fraction % 2 = 0)


/-- Two runes are of the same kind when both, or neither, are ASCII letters or
digits. -/
def sameKind (a b : Char) : Bool := a.isAlphanum == b.isAlphanum

/-- What the specification puts in place of a maximal run: a run of letters and
digits stays, any other run becomes one underscore. -/
def renderRun (run : List Char) : List Char :=
  if run.all Char.isAlphanum then run else ['_']

/-- Reference for `sanitize`, following the specification: cut the text into
its maximal runs of runes of the same kind, keep the runs of ASCII letters and
digits in place and replace each other run by exactly one underscore. -/
def sanitizeRef (x : String) : String :=
  String.mk ((x.data.splitBy sameKind).map renderRun).flatten

/-- Whether two underscores stand next to each other somewhere in the text. -/
def hasAdjacentUnderscores : List Char → Bool
  | a :: b :: rest => (a == '_' && b == '_') || hasAdjacentUnderscores (b :: rest)
  | _ => false

/-- The row data `buildMetricDataRow` translates: `CountData`, `SumData` and
`LastValueData`. -/
def isSupported : view.AggregationData → Bool
  | .CountData _ => true
  | .SumData _ => true
  | .LastValueData _ => true
  | _ => false

/-- The tag `test=testvalue` of the test suite. -/
def testTag : tag.Tag := { Key := { name := "test" }, Value := "testvalue" }

/-- The snapshot of the test suite: view `foo` with one row tagged
`test=testvalue` holding `data`. -/
def testViewData (data : view.AggregationData) : view.Data :=
  { View := { Name := "foo", Aggregation := none }
    Rows := [{ Tags := [testTag], Data := data }] }

/-- The exporter of the test suite: namespace `bar`, no callback, the recording
client. -/
def testExporter : cloudWatchExporter (Slice cloudwatch.PutMetricDataInput) :=
  { opts := { Namespace := "bar", OnError := none, UseSharedAwsConfig := false,
              UseEnvCredentials := false, Region := "" }
    cwapi := mockedReceiveMsgs }

/-- The request the test suite expects in each of its three cases. -/
def testExpected : cloudwatch.PutMetricDataInput :=
  { Namespace := some "bar"
    MetricData := some [some
      { MetricName := some "foo"
        Value := some float64One
        Unit := some "None"
        Dimensions := some [{ Name := some "test", Value := some "testvalue" }] }] }

/-- A distribution with no samples. -/
def emptyDistribution : view.DistributionData :=
  { Count := 0, Min := ⟨0⟩, Max := ⟨0⟩, Mean := ⟨0⟩, SumOfSquaredDev := ⟨0⟩,
    CountPerBucket := [] }

/-- A view `latency` aggregated as a distribution, with one untagged row. -/
def distributionViewData : view.Data :=
  { View := { Name := "latency"
              Aggregation := some { aggType := .AggTypeDistribution, Buckets := [] } }
    Rows := [{ Tags := [], Data := .DistributionData emptyDistribution }] }

/-- A client whose every call fails with `err` and leaves the world as it is. -/
def failingClient {ω : Type} (err : GoError) : CloudWatchAPI ω where
  PutMetricData := fun _ w => (some err, w)

/-- An exporter over a counter world: the callback adds one, the client is
`cwapi`. -/
def countingExporter (cwapi : CloudWatchAPI Nat) : cloudWatchExporter Nat :=
  { opts := { Namespace := "bar", OnError := some fun _ n => n + 1,
              UseSharedAwsConfig := true, UseEnvCredentials := false, Region := "" }
    cwapi := cwapi }

/-- A client whose every call succeeds and leaves the world as it is. -/
def succeedingClient {ω : Type} : CloudWatchAPI ω where
  PutMetricData := fun _ w => (none, w)

/-- An SDK entry point reached by `New`. -/
inductive SdkCall where
  | NewSessionWithOptions (sessionOpts : SessionOptions)
  | cloudwatchNew
deriving DecidableEq, Repr

/-- An SDK whose world is the log of the entry points reached so far: a session
is always obtained and the client built from it always succeeds. -/
def recordingSdk : AwsSdk (List SdkCall) Unit where
  NewSessionWithOptions := fun sessionOpts log =>
    (.ok (), log ++ [SdkCall.NewSessionWithOptions sessionOpts])
  cloudwatchNew := fun _ log => (succeedingClient, log ++ [SdkCall.cloudwatchNew])

/-- The error `New` returns when no credential source is selected. -/
def noCredentialSource : GoError :=
  ⟨"One of \"UseSharedAwsConfig,UseEnvCredentials\" must be specified"⟩

/-- The exporter a call of `New` returned, if it returned a non-nil one. -/
def returnedExporter {ω : Type} :
    GoResult (Option (cloudWatchExporter ω) × Option GoError) → Option (cloudWatchExporter ω)
  | .returned (exporter, _) => exporter
  | .panicked _ => none

/-- The error a call of `New` returned, if it returned a non-nil one. -/
def returnedError {ω : Type} :
    GoResult (Option (cloudWatchExporter ω) × Option GoError) → Option GoError
  | .returned (_, err) => err
  | .panicked _ => none

/-- The session options of the shared-configuration branch of `New`. -/
def sharedConfigSessionOptions : SessionOptions :=
  { Config := { Region := none, Credentials := none }
    SharedConfigState := .SharedConfigEnable }

/-- The session options of the environment-credentials branch of `New` for a
given region. -/
def envCredentialsSessionOptions (region : String) : SessionOptions :=
  { Config := { Region := some region, Credentials := some .NewEnvCredentials }
    SharedConfigState := .SharedConfigStateFromEnv }

/-- Options with both credential-source flags set. -/
def bothFlagsOptions : Options (List SdkCall) :=
  { Namespace := "bar", OnError := none, UseSharedAwsConfig := true,
    UseEnvCredentials := true, Region := "eu-west-1" }

/-- Options selecting environment credentials and leaving the region empty. -/
def envNoRegionOptions : Options (List SdkCall) :=
  { Namespace := "bar", OnError := none, UseSharedAwsConfig := false,
    UseEnvCredentials := true, Region := "" }

/-- The `PutMetricData` requests among a list of calls, in order. -/
def requestsOf (calls : List Call) : List cloudwatch.PutMetricDataInput :=
  calls.filterMap fun
    | .PutMetricData request => some request
    | .OnError _ => none

/-- The errors `OnError` was called with among a list of calls, in order. -/
def reportedErrors (calls : List Call) : List GoError :=
  calls.filterMap fun
    | .PutMetricData _ => none
    | .OnError err => some err

/-- An exporter over a counter world without callback, with client `cwapi`. -/
def silentExporter (cwapi : CloudWatchAPI Nat) : cloudWatchExporter Nat :=
  { opts := { Namespace := "bar", OnError := none,
              UseSharedAwsConfig := true, UseEnvCredentials := false, Region := "" }
    cwapi := cwapi }

/-- A row of the test suite's shape holding a count of one. -/
def countRow : view.Row := { Tags := [testTag], Data := .CountData 1 }

/-- An untagged row holding a distribution. -/
def distributionRow : view.Row :=
  { Tags := [], Data := .DistributionData emptyDistribution }

/-- An untagged row whose data reaches the default case of the type switch. -/
def otherRow : view.Row := { Tags := [], Data := .Other "<nil>" }

/-! ## Properties of `sanitize` -/

theorem inClass_eq_not_isAlphanum (c : Char) : inClass c = !c.isAlphanum := by
  simp only [inClass, classRanges, List.any_cons, List.any_nil, Bool.or_false,
    Char.isAlphanum, Char.isAlpha, Char.isUpper, Char.isLower, Char.isDigit]
  have h1 : ∀ a b : Char, decide (a ≤ b) = decide (a.val ≤ b.val) := fun a b => rfl
  simp only [h1]
  have e1 : ('a' : Char).val = 97 := rfl
  have e2 : ('z' : Char).val = 122 := rfl
  have e3 : ('A' : Char).val = 65 := rfl
  have e4 : ('Z' : Char).val = 90 := rfl
  have e5 : ('0' : Char).val = 48 := rfl
  have e6 : ('9' : Char).val = 57 := rfl
  simp only [e1, e2, e3, e4, e5, e6, ge_iff_le]
  cases decide (97 ≤ c.val) <;> cases decide (c.val ≤ 122) <;> cases decide (65 ≤ c.val) <;>
    cases decide (c.val ≤ 90) <;> cases decide (48 ≤ c.val) <;> cases decide (c.val ≤ 57) <;> rfl

theorem inClass_underscore : inClass '_' = true := by decide

theorem replaceAll_fixed (l : List Char) :
    (∀ b, replaceAll ['_'] false (replaceAll ['_'] b l) = replaceAll ['_'] b l) ∧
      replaceAll ['_'] true (replaceAll ['_'] true l) = replaceAll ['_'] true l := by
  induction l with
  | nil => simp [replaceAll]
  | cons c cs ih =>
    obtain ⟨ih1, ih2⟩ := ih
    by_cases hc : inClass c = true
    · refine ⟨fun b => ?_, ?_⟩
      · cases b
        · simp [replaceAll, hc, inClass_underscore, ih2]
        · simp [replaceAll, hc, ih1]
      · simp [replaceAll, hc, ih2]
    · refine ⟨fun b => ?_, ?_⟩
      · simp [replaceAll, hc, ih1]
      · simp [replaceAll, hc, ih1]


theorem splitByLoop_acc {α : Type} (R : α → α → Bool) (l : List α) :
    ∀ (a : α) (g : List α) (gs : List (List α)),
      List.splitBy.loop R l a g gs = gs.reverse ++ List.splitBy.loop R l a g [] := by
  induction l with
  | nil => intro a g gs; simp [List.splitBy.loop]
  | cons b l ih =>
    intro a g gs
    cases hR : R a b
    · simp only [List.splitBy.loop, hR]
      rw [ih b [] ((a :: g).reverse :: gs), ih b [] [(a :: g).reverse]]
      simp
    · simp only [List.splitBy.loop, hR]
      exact ih b (a :: g) gs

theorem renderRun_of_class (run : List Char) (a : Char) (ha : inClass a = true)
    (hmem : a ∈ run) : renderRun run = ['_'] := by
  have : run.all Char.isAlphanum = false := by
    rw [List.all_eq_false]
    refine ⟨a, hmem, ?_⟩
    rw [inClass_eq_not_isAlphanum] at ha
    simpa using ha
  simp [renderRun, this]

theorem renderRun_of_alnum (run : List Char) (h : ∀ x ∈ run, inClass x = false) :
    renderRun run = run := by
  have : run.all Char.isAlphanum = true := by
    rw [List.all_eq_true]
    intro x hx
    have := h x hx
    rw [inClass_eq_not_isAlphanum] at this
    simpa using this
  simp [renderRun, this]

theorem sameKind_eq (a b : Char) : sameKind a b = (inClass a == inClass b) := by
  simp only [sameKind, inClass_eq_not_isAlphanum]
  cases a.isAlphanum <;> cases b.isAlphanum <;> rfl

theorem render_splitByLoop (l : List Char) :
    ∀ (a : Char) (g : List Char), (inClass a = false → ∀ x ∈ g, inClass x = false) →
      ((List.splitBy.loop sameKind l a g []).map renderRun).flatten =
        if inClass a then '_' :: replaceAll ['_'] true l
        else g.reverse ++ a :: replaceAll ['_'] false l := by
  induction l with
  | nil =>
    intro a g hg
    by_cases ha : inClass a = true
    · simp [List.splitBy.loop, replaceAll, ha, renderRun_of_class _ a ha]
    · have ha' : inClass a = false := by simpa using ha
      have hr : renderRun (g.reverse ++ [a]) = g.reverse ++ [a] := by
        apply renderRun_of_alnum
        intro x hx
        rcases List.mem_append.1 hx with hx | hx
        · exact hg ha' x (List.mem_reverse.1 hx)
        · rw [List.mem_singleton.1 hx]; exact ha'
      simp [List.splitBy.loop, replaceAll, ha', hr]
  | cons b l ih =>
    intro a g hg
    by_cases ha : inClass a = true <;> by_cases hb : inClass b = true
    · have hR : sameKind a b = true := by simp [sameKind_eq, ha, hb]
      simp only [List.splitBy.loop, hR]
      rw [ih b (a :: g) (by intro h; simp [hb] at h)]
      simp [replaceAll, ha, hb]
    · have hb' : inClass b = false := by simpa using hb
      have hR : sameKind a b = false := by simp [sameKind_eq, ha, hb']
      simp only [List.splitBy.loop, hR]
      rw [splitByLoop_acc, List.map_append, List.flatten_append, ih b [] (by simp)]
      simp [replaceAll, ha, hb', renderRun_of_class _ a ha]
    · have ha' : inClass a = false := by simpa using ha
      have hR : sameKind a b = false := by simp [sameKind_eq, ha', hb]
      have hr : renderRun (g.reverse ++ [a]) = g.reverse ++ [a] := by
        apply renderRun_of_alnum
        intro x hx
        rcases List.mem_append.1 hx with hx | hx
        · exact hg ha' x (List.mem_reverse.1 hx)
        · rw [List.mem_singleton.1 hx]; exact ha'
      simp only [List.splitBy.loop, hR]
      rw [splitByLoop_acc, List.map_append, List.flatten_append, ih b [] (by simp)]
      simp [replaceAll, ha', hb, hr]
    · have ha' : inClass a = false := by simpa using ha
      have hb' : inClass b = false := by simpa using hb
      have hR : sameKind a b = true := by simp [sameKind_eq, ha', hb']
      simp only [List.splitBy.loop, hR]
      rw [ih b (a :: g) (by
        intro _ x hx
        rcases List.mem_cons.1 hx with hx | hx
        · rw [hx]; exact ha'
        · exact hg ha' x hx)]
      simp [replaceAll, ha', hb']

theorem replaceAll_eq_ref (l : List Char) :
    replaceAll ['_'] false l = ((l.splitBy sameKind).map renderRun).flatten := by
  cases l with
  | nil => simp [replaceAll, List.splitBy]
  | cons c cs =>
    rw [List.splitBy, render_splitByLoop cs c [] (by simp)]
    by_cases hc : inClass c = true <;> simp [replaceAll, hc]

theorem replaceAll_of_clean (l : List Char)
    (hw : ∀ c ∈ l, c.isAlphanum = true ∨ c = '_')
    (hc : hasAdjacentUnderscores l = false) :
    replaceAll ['_'] false l = l ∧
      ((∀ c ∈ l.head?, c ≠ '_') → replaceAll ['_'] true l = l) := by
  induction l with
  | nil => simp [replaceAll]
  | cons c cs ih =>
    have htail : hasAdjacentUnderscores cs = false := by
      cases cs with
      | nil => rfl
      | cons d ds =>
        simp only [hasAdjacentUnderscores, Bool.or_eq_false_iff] at hc
        exact hc.2
    have hcs := ih (fun x hx => hw x (List.mem_cons_of_mem _ hx)) htail
    have hkind : inClass c = true ↔ c = '_' := by
      constructor
      · intro h
        rcases hw c (List.mem_cons_self _ _) with h1 | h1
        · rw [inClass_eq_not_isAlphanum, h1] at h; simp at h
        · exact h1
      · intro h; rw [h]; exact inClass_underscore
    by_cases hu : c = '_'
    · have hin : inClass c = true := hkind.2 hu
      refine ⟨?_, fun h => absurd hu (h c (by simp))⟩
      have hhead : ∀ d ∈ cs.head?, d ≠ '_' := by
        intro d hd
        cases cs with
        | nil => simp at hd
        | cons d' ds =>
          simp only [List.head?_cons, Option.mem_def, Option.some.injEq] at hd
          simp only [hasAdjacentUnderscores, Bool.or_eq_false_iff, hu] at hc
          intro hd'
          rw [hd, hd'] at hc
          simp at hc
      simp only [replaceAll, hin, if_true, Bool.false_eq_true, if_false]
      rw [hcs.2 hhead, hu]
      rfl
    · have hin : ¬ inClass c = true := fun h => hu (hkind.1 h)
      refine ⟨?_, fun _ => ?_⟩ <;> simp [replaceAll, hin, hcs.1]

/-- Claim C5. `sanitize` is idempotent: sanitizing a sanitized name changes
nothing, for every string. -/
theorem sanitize_idempotent (x : String) : sanitize (sanitize x) = sanitize x := by
  simp only [sanitize, (replaceAll_fixed x.data).1 false]

/-- Claim C6, as stated, fails: `a__b` is non-empty and made of ASCII letters,
digits and underscores only, yet `sanitize` turns it into `a_b`. -/
theorem sanitize_word_not_fixed :
    "a__b" ≠ "" ∧ (∀ c ∈ "a__b".data, c.isAlphanum = true ∨ c = '_') ∧
      sanitize "a__b" = "a_b" ∧ sanitize "a__b" ≠ "a__b" := by
  decide

/-- Claim C6, amended. A non-empty string made of ASCII letters, digits and
underscores only, in which no two underscores are adjacent, is returned
unchanged by `sanitize`. -/
theorem sanitize_word_fixed (x : String) (_hne : x ≠ "")
    (hw : ∀ c ∈ x.data, c.isAlphanum = true ∨ c = '_')
    (hc : hasAdjacentUnderscores x.data = false) :
    sanitize x = x := by
  simp only [sanitize, (replaceAll_of_clean x.data hw hc).1]

/-- The text `a_b_1` has single underscores only and is returned unchanged. -/
theorem sanitize_word_fixed_witness : sanitize "a_b_1" = "a_b_1" :=
  sanitize_word_fixed "a_b_1" (by decide) (by decide) (by decide)

/-- Claim C7. For every string, `sanitize` returns the reference result: the
ASCII letters and digits kept in place and every maximal run of other
characters replaced by exactly one underscore; `a/b c` gives `a_b_c` and `a//b`
gives `a_b`. -/
theorem sanitize_eq_sanitizeRef :
    (∀ x : String, sanitize x = sanitizeRef x) ∧
      sanitize "a/b c" = "a_b_c" ∧ sanitize "a//b" = "a_b" := by
  refine ⟨fun x => ?_, by decide, by decide⟩
  simp only [sanitize, sanitizeRef, replaceAll_eq_ref]

/-! ## Properties of the conversion to `float64` -/

theorem topBit_spec : ∀ (w m : Nat), 0 < m → m < 2 ^ w →
    2 ^ topBit w m ≤ m ∧ m < 2 ^ (topBit w m + 1) := by
  intro w
  induction w with
  | zero => intro m h0 h1; simp at h1; omega
  | succ w ih =>
    intro m h0 h1
    by_cases h2 : m < 2
    · have : m = 1 := by omega
      subst this
      simp [topBit]
    · have h3 : 0 < m / 2 := by omega
      have h4 : m / 2 < 2 ^ w := by
        rw [Nat.div_lt_iff_lt_mul (by norm_num)]
        rw [pow_succ] at h1
        exact h1
      obtain ⟨i1, i2⟩ := ih (m / 2) h3 h4
      simp only [topBit, h2, if_false]
      constructor
      · rw [pow_succ]
        have := Nat.div_mul_le_self m 2
        calc 2 ^ topBit w (m / 2) * 2 ≤ m / 2 * 2 := Nat.mul_le_mul_right 2 i1
          _ ≤ m := this
      · rw [pow_succ]
        have : m < (m / 2 + 1) * 2 := by omega
        calc m < (m / 2 + 1) * 2 := this
          _ ≤ 2 ^ (topBit w (m / 2) + 1) * 2 := Nat.mul_le_mul_right 2 i2

theorem fields_of_bits (s E F : Nat) (hs : s ≤ 1) (hE : E < 2047) (hF : F < 2 ^ 52) :
    (Float64.mk (s * 2 ^ 63 + E * 2 ^ 52 + F)).isFinite = true ∧
    (Float64.mk (s * 2 ^ 63 + E * 2 ^ 52 + F)).sign = s ∧
    (Float64.mk (s * 2 ^ 63 + E * 2 ^ 52 + F)).exponent = E ∧
    (Float64.mk (s * 2 ^ 63 + E * 2 ^ 52 + F)).fraction = F := by
  simp only [Float64.isFinite, Float64.sign, Float64.exponent, Float64.fraction,
    Bool.and_eq_true, decide_eq_true_eq]
  norm_num at hF ⊢
  refine ⟨⟨?_, ?_⟩, ?_, ?_, ?_⟩ <;> omega


theorem magnitude_nonneg (g : Float64) : 0 ≤ g.magnitude := by
  unfold Float64.magnitude
  split <;> positivity

theorem abs_toRat (g : Float64) : |g.toRat| = g.magnitude := by
  unfold Float64.toRat
  split
  · rw [abs_neg, abs_of_nonneg (magnitude_nonneg g)]
  · exact abs_of_nonneg (magnitude_nonneg g)

theorem magnitude_form (g : Float64) :
    ∃ (N : ℕ) (k : ℤ), N < 2 ^ 53 ∧ g.magnitude = (N : ℚ) * 2 ^ k := by
  have hF : g.fraction < 2 ^ 52 := Nat.mod_lt _ (by norm_num)
  unfold Float64.magnitude
  split
  · exact ⟨g.fraction, -1074, by omega, rfl⟩
  · exact ⟨2 ^ 52 + g.fraction, (g.exponent : ℤ) - 1075, by omega, rfl⟩

theorem decode_normal (s E Mn : Nat) (hs : s ≤ 1) (hE1 : 1 ≤ E) (hE2 : E ≤ 2045)
    (hM1 : 2 ^ 52 ≤ Mn) (hM2 : Mn ≤ 2 ^ 53) :
    (Float64.mk (s * 2 ^ 63 + E * 2 ^ 52 + (Mn - 2 ^ 52))).isFinite = true ∧
    (Float64.mk (s * 2 ^ 63 + E * 2 ^ 52 + (Mn - 2 ^ 52))).sign = s ∧
    (Float64.mk (s * 2 ^ 63 + E * 2 ^ 52 + (Mn - 2 ^ 52))).magnitude =
      (Mn : ℚ) * 2 ^ ((E : ℤ) - 1075) ∧
    (Float64.mk (s * 2 ^ 63 + E * 2 ^ 52 + (Mn - 2 ^ 52))).fraction % 2 = Mn % 2 := by
  by_cases hlt : Mn < 2 ^ 53
  · obtain ⟨h1, h2, h3, h4⟩ := fields_of_bits s E (Mn - 2 ^ 52) hs (by omega) (by omega)
    refine ⟨h1, h2, ?_, ?_⟩
    · have hE0 : E ≠ 0 := by omega
      have hsum : 2 ^ 52 + (Mn - 2 ^ 52) = Mn := by omega
      simp only [Float64.magnitude, h3, h4, hE0, if_false, hsum]
    · rw [h4]; omega
  · have hMn : Mn = 2 ^ 53 := by omega
    have hbits : s * 2 ^ 63 + E * 2 ^ 52 + (Mn - 2 ^ 52) =
        s * 2 ^ 63 + (E + 1) * 2 ^ 52 + 0 := by
      rw [hMn]; ring_nf
    rw [hbits]
    obtain ⟨h1, h2, h3, h4⟩ := fields_of_bits s (E + 1) 0 hs (by omega) (by norm_num)
    refine ⟨h1, h2, ?_, ?_⟩
    · have hE0 : E + 1 ≠ 0 := by omega
      simp only [Float64.magnitude, h3, h4, hE0, if_false, hMn]
      have : ((E + 1 : ℕ) : ℤ) - 1075 = ((E : ℤ) - 1075) + 1 := by push_cast; ring
      rw [this, zpow_add₀ (by norm_num : (2 : ℚ) ≠ 0)]
      push_cast
      ring
    · rw [h4, hMn]; norm_num

theorem float_gap (N q sh : ℕ) (k : ℤ) (hN : N < 2 ^ 53) (hq : 2 ^ 52 ≤ q) :
    (N : ℚ) * 2 ^ k ≤ (q : ℚ) * 2 ^ sh ∨ ((q : ℚ) + 1) * 2 ^ sh ≤ (N : ℚ) * 2 ^ k := by
  have hP : (0 : ℚ) < 2 ^ sh := by positivity
  by_cases hk : (sh : ℤ) ≤ k
  · obtain ⟨j, hj⟩ := Int.le.dest hk
    have hpow : (2 : ℚ) ^ k = 2 ^ sh * 2 ^ j := by
      rw [← hj, zpow_add₀ (by norm_num : (2 : ℚ) ≠ 0), zpow_natCast, zpow_natCast]
    rw [hpow]
    by_cases hc : N * 2 ^ j ≤ q
    · left
      have : ((N * 2 ^ j : ℕ) : ℚ) ≤ (q : ℚ) := by exact_mod_cast hc
      push_cast at this
      nlinarith
    · right
      have : ((q + 1 : ℕ) : ℚ) ≤ ((N * 2 ^ j : ℕ) : ℚ) := by exact_mod_cast (by omega : q + 1 ≤ N * 2 ^ j)
      push_cast at this
      nlinarith
  · left
    have hk' : k ≤ (sh : ℤ) - 1 := by omega
    have h1 : (2 : ℚ) ^ k ≤ 2 ^ ((sh : ℤ) - 1) := zpow_le_zpow_right₀ (by norm_num) hk'
    have h2 : (2 : ℚ) ^ ((sh : ℤ) - 1) * 2 = 2 ^ sh := by
      rw [← zpow_natCast, ← zpow_add_one₀ (by norm_num : (2 : ℚ) ≠ 0)]
      congr 1
      ring
    have h3 : (N : ℚ) ≤ 2 ^ 53 := by exact_mod_cast hN.le
    have h4 : (2 : ℚ) ^ 52 ≤ q := by exact_mod_cast hq
    have h5 : (0 : ℚ) < 2 ^ k := by positivity
    have h6 : (0 : ℚ) < 2 ^ ((sh : ℤ) - 1) := by positivity
    calc (N : ℚ) * 2 ^ k ≤ 2 ^ 53 * 2 ^ ((sh : ℤ) - 1) := by
          apply mul_le_mul h3 h1 h5.le (by positivity)
      _ = 2 ^ 52 * 2 ^ sh := by rw [← h2]; ring
      _ ≤ (q : ℚ) * 2 ^ sh := by
          apply mul_le_mul_of_nonneg_right h4 hP.le


theorem nearest_of_gap (L P r y : ℚ) (hy : y ≤ L ∨ L + P ≤ y) :
    (0 ≤ r → 2 * r ≤ P → |L - (L + r)| ≤ |y - (L + r)|) ∧
    (r ≤ P → P ≤ 2 * r → |L + P - (L + r)| ≤ |y - (L + r)|) ∧
    (0 ≤ r → 2 * r ≤ P → y ≠ L → |y - (L + r)| = |L - (L + r)| → 2 * r = P) ∧
    (r ≤ P → P ≤ 2 * r → y ≠ L + P → |y - (L + r)| = |L + P - (L + r)| → 2 * r = P) := by
  have e1 : L - (L + r) = -r := by ring
  have e2 : L + P - (L + r) = P - r := by ring
  rw [e1, e2, abs_neg]
  refine ⟨fun h0 h1 => ?_, fun h0 h1 => ?_, fun h0 h1 hne heq => ?_, fun h0 h1 hne heq => ?_⟩
  · rw [abs_of_nonneg h0]
    rcases hy with hy | hy
    · rw [abs_of_nonpos (by linarith)]; linarith
    · rw [abs_of_nonneg (by linarith)]; linarith
  · rw [abs_of_nonneg (by linarith : 0 ≤ P - r)]
    rcases hy with hy | hy
    · rw [abs_of_nonpos (by linarith)]; linarith
    · rw [abs_of_nonneg (by linarith)]; linarith
  · rw [abs_of_nonneg h0] at heq
    rcases hy with hy | hy
    · rw [abs_of_nonpos (by linarith)] at heq
      exact absurd (by linarith : y = L) hne
    · rw [abs_of_nonneg (by linarith)] at heq
      linarith
  · rw [abs_of_nonneg (by linarith : 0 ≤ P - r)] at heq
    rcases hy with hy | hy
    · rw [abs_of_nonpos (by linarith)] at heq
      linarith
    · rw [abs_of_nonneg (by linarith)] at heq
      exact absurd (by linarith : y = L + P) hne

theorem isNearestEven_of_magnitude (f : Float64) (v : Int)
    (hfin : f.isFinite = true) (hsign : f.sign = if v < 0 then 1 else 0)
    (hpos : 0 < f.magnitude) (hv : v ≠ 0)
    (hnear : ∀ g : Float64, |f.magnitude - abs (v : ℚ)| ≤ |g.magnitude - abs (v : ℚ)|)
    (htie : ∀ g : Float64, g.magnitude ≠ f.magnitude →
      |g.magnitude - abs (v : ℚ)| = |f.magnitude - abs (v : ℚ)| → f.fraction % 2 = 0) :
    IsNearestEven f v := by
  have hvq : (v : ℚ) ≠ 0 := by exact_mod_cast hv
  have habs : 0 < abs (v : ℚ) := abs_pos.2 hvq
  have hf : |f.toRat - v| = |f.magnitude - abs (v : ℚ)| := by
    unfold Float64.toRat
    by_cases hneg : v < 0
    · have hq : (v : ℚ) < 0 := by exact_mod_cast hneg
      rw [hsign, if_pos hneg, if_pos (by norm_num), abs_of_neg hq]
      rw [← abs_neg]
      congr 1
      ring
    · have hq : (0 : ℚ) ≤ v := by exact_mod_cast (not_lt.1 hneg)
      rw [hsign, if_neg hneg, if_neg (by norm_num), abs_of_nonneg hq]
  have hg : ∀ g : Float64, |g.magnitude - abs (v : ℚ)| ≤ |g.toRat - v| := by
    intro g
    rw [← abs_toRat g]
    exact abs_abs_sub_abs_le_abs_sub _ _
  refine ⟨hfin, hsign, fun g _ => ?_, fun g _ hne heq => ?_⟩
  · rw [hf]
    exact le_trans (hnear g) (hg g)
  · by_cases hm : g.magnitude = f.magnitude
    · exfalso
      -- same magnitude, different number: opposite signs
      have hgf : g.toRat = -f.toRat := by
        have h1 := abs_toRat g
        have h2 := abs_toRat f
        rw [hm, ← h2] at h1
        rcases abs_eq_abs.1 h1 with h | h
        · exact absurd h hne
        · exact h
      have hsum : |f.toRat + v| = f.magnitude + abs (v : ℚ) := by
        unfold Float64.toRat
        by_cases hneg : v < 0
        · have hq : (v : ℚ) < 0 := by exact_mod_cast hneg
          rw [hsign, if_pos hneg, if_pos (by norm_num), abs_of_neg hq,
            abs_of_nonpos (by linarith)]
          ring
        · have hq : (0 : ℚ) ≤ v := by exact_mod_cast (not_lt.1 hneg)
          rw [hsign, if_neg hneg, if_neg (by norm_num), abs_of_nonneg hq,
            abs_of_nonneg (by linarith)]
      rw [hgf, hf] at heq
      have h3 : |-f.toRat - (v : ℚ)| = |f.toRat + v| := by
        rw [← abs_neg]; congr 1; ring
      rw [h3, hsum] at heq
      have h4 : |f.magnitude - abs (v : ℚ)| < f.magnitude + abs (v : ℚ) := by
        rw [abs_lt]; constructor <;> linarith
      linarith
    · apply htie g hm
      apply le_antisymm
      · rw [← hf, ← heq]; exact hg g
      · exact hnear g


theorem float64OfInt64_small (v : Int) (hv : v ≠ 0) (he : topBit 64 v.natAbs ≤ 52) :
    float64OfInt64 v =
      ⟨(if v < 0 then 1 else 0) * 2 ^ 63 + (topBit 64 v.natAbs + 1023) * 2 ^ 52 +
        (v.natAbs * 2 ^ (52 - topBit 64 v.natAbs) - 2 ^ 52)⟩ := by
  simp only [float64OfInt64, hv, he, if_false, if_true]

theorem float64OfInt64_large (v : Int) (hv : v ≠ 0) (he : ¬ topBit 64 v.natAbs ≤ 52) :
    float64OfInt64 v =
      ⟨(if v < 0 then 1 else 0) * 2 ^ 63 + (topBit 64 v.natAbs + 1023) * 2 ^ 52 +
        ((if 2 ^ (topBit 64 v.natAbs - 52 - 1) < v.natAbs % 2 ^ (topBit 64 v.natAbs - 52) ∨
              (v.natAbs % 2 ^ (topBit 64 v.natAbs - 52) = 2 ^ (topBit 64 v.natAbs - 52 - 1) ∧
                v.natAbs / 2 ^ (topBit 64 v.natAbs - 52) % 2 = 1)
            then v.natAbs / 2 ^ (topBit 64 v.natAbs - 52) + 1
            else v.natAbs / 2 ^ (topBit 64 v.natAbs - 52)) - 2 ^ 52)⟩ := by
  simp only [float64OfInt64, hv, he, if_false]

theorem natAbs_facts (v : Int) (hv : v ≠ 0) (hlo : -2 ^ 63 ≤ v) (hhi : v < 2 ^ 63) :
    0 < v.natAbs ∧ v.natAbs < 2 ^ 64 ∧ abs (v : ℚ) = (v.natAbs : ℚ) := by
  refine ⟨by omega, by omega, ?_⟩
  rw [Nat.cast_natAbs, Int.cast_abs]


theorem isNearestEven_zero : IsNearestEven (float64OfInt64 0) 0 := by
  have hbits : float64OfInt64 0 = ⟨0⟩ := rfl
  have hfields := fields_of_bits 0 0 0 (by norm_num) (by norm_num) (by norm_num)
  simp only [Nat.zero_mul, Nat.add_zero] at hfields
  obtain ⟨h1, h2, h3, h4⟩ := hfields
  have hmag : (Float64.mk 0).magnitude = 0 := by
    simp [Float64.magnitude, h3, h4]
  have hrat : (Float64.mk 0).toRat = 0 := by
    simp [Float64.toRat, hmag]
  rw [hbits]
  refine ⟨h1, by simpa using h2, fun g _ => ?_, fun g _ hne heq => ?_⟩
  · rw [hrat]; simp
  · exfalso
    rw [hrat] at heq hne
    simp only [Int.cast_zero, sub_zero, abs_zero, abs_eq_zero] at heq
    exact hne heq

theorem isNearestEven_small (v : Int) (hv : v ≠ 0) (hlo : -2 ^ 63 ≤ v) (hhi : v < 2 ^ 63)
    (he : topBit 64 v.natAbs ≤ 52) :
    IsNearestEven (float64OfInt64 v) v ∧ (float64OfInt64 v).magnitude = abs (v : ℚ) := by
  obtain ⟨hm0, hm64, habs⟩ := natAbs_facts v hv hlo hhi
  obtain ⟨hb1, hb2⟩ := topBit_spec 64 v.natAbs hm0 hm64
  generalize hm : v.natAbs = m at *
  generalize hE : topBit 64 m = e at *
  have hsplit : 2 ^ e * 2 ^ (52 - e) = 2 ^ 52 := by
    rw [← pow_add]; congr 1; omega
  have hM1 : 2 ^ 52 ≤ m * 2 ^ (52 - e) := by
    rw [← hsplit]; exact Nat.mul_le_mul_right _ hb1
  have hM2 : m * 2 ^ (52 - e) ≤ 2 ^ 53 := by
    have : 2 ^ (e + 1) * 2 ^ (52 - e) = 2 ^ 53 := by
      rw [← pow_add]; congr 1; omega
    rw [← this]
    exact Nat.mul_le_mul_right _ hb2.le
  have hs : (if v < 0 then 1 else 0 : ℕ) ≤ 1 := by split <;> omega
  obtain ⟨d1, d2, d3, d4⟩ := decode_normal (if v < 0 then 1 else 0) (e + 1023)
    (m * 2 ^ (52 - e)) hs (by omega) (by omega) hM1 hM2
  have hbits := float64OfInt64_small v hv (by rw [hm, hE]; exact he)
  rw [hm, hE] at hbits
  rw [hbits]
  have hmag : (Float64.mk ((if v < 0 then 1 else 0) * 2 ^ 63 + (e + 1023) * 2 ^ 52 +
      (m * 2 ^ (52 - e) - 2 ^ 52))).magnitude = (m : ℚ) := by
    rw [d3]
    push_cast
    rw [mul_assoc, ← zpow_natCast, ← zpow_add₀ (by norm_num : (2 : ℚ) ≠ 0)]
    have : ((52 - e : ℕ) : ℤ) + ((e : ℤ) + 1023 - 1075) = 0 := by omega
    rw [this, zpow_zero, mul_one]
  have hmpos : (0 : ℚ) < m := by exact_mod_cast hm0
  refine ⟨isNearestEven_of_magnitude _ v d1 d2 (by rw [hmag]; exact hmpos) hv
    (fun g => ?_) (fun g hne heq => ?_), by rw [hmag, habs]⟩
  · rw [hmag, habs, sub_self, abs_zero]; exact abs_nonneg _
  · exfalso
    rw [hmag, habs, sub_self, abs_zero, abs_eq_zero, sub_eq_zero] at heq
    exact hne (by rw [hmag]; exact heq)


theorem isNearestEven_rounded (v : Int) (hv : v ≠ 0) (m q r sh Q1 E : ℕ)
    (habs : abs (v : ℚ) = (m : ℚ)) (hm : m = q * 2 ^ sh + r) (hr : r < 2 ^ sh)
    (hq1 : 2 ^ 52 ≤ q) (hq2 : q < 2 ^ 53) (hE1 : 1 ≤ E) (hE2 : E ≤ 2045)
    (hEsh : (E : ℤ) - 1075 = sh)
    (hQ : (Q1 = q ∧ 2 * r ≤ 2 ^ sh ∧ (2 * r = 2 ^ sh → q % 2 = 0)) ∨
      (Q1 = q + 1 ∧ 2 ^ sh ≤ 2 * r ∧ (2 * r = 2 ^ sh → (q + 1) % 2 = 0))) :
    IsNearestEven
      ⟨(if v < 0 then 1 else 0) * 2 ^ 63 + E * 2 ^ 52 + (Q1 - 2 ^ 52)⟩ v := by
  have hs : (if v < 0 then 1 else 0 : ℕ) ≤ 1 := by split <;> omega
  have hQb : 2 ^ 52 ≤ Q1 ∧ Q1 ≤ 2 ^ 53 := by
    rcases hQ with ⟨h, _, _⟩ | ⟨h, _, _⟩ <;> omega
  obtain ⟨d1, d2, d3, d4⟩ := decode_normal (if v < 0 then 1 else 0) E Q1 hs hE1 hE2 hQb.1 hQb.2
  rw [hEsh, zpow_natCast] at d3
  have hmq : (m : ℚ) = (q : ℚ) * 2 ^ sh + r := by rw [hm]; push_cast; ring
  have hr0 : (0 : ℚ) ≤ r := Nat.cast_nonneg r
  have hrP : (r : ℚ) ≤ 2 ^ sh := by exact_mod_cast hr.le
  have hP : (0 : ℚ) < 2 ^ sh := by positivity
  have hqpos : (0 : ℚ) < q := by
    have : (2 : ℚ) ^ 52 ≤ q := by exact_mod_cast hq1
    linarith [show (0 : ℚ) < 2 ^ 52 by positivity]
  have hgap : ∀ g : Float64, g.magnitude ≤ (q : ℚ) * 2 ^ sh ∨
      (q : ℚ) * 2 ^ sh + 2 ^ sh ≤ g.magnitude := by
    intro g
    obtain ⟨N, k, hN, hg⟩ := magnitude_form g
    rw [hg]
    rcases float_gap N q sh k hN hq1 with h | h
    · exact Or.inl h
    · right; linarith
  have hcast : ∀ a b : ℕ, (2 * (a : ℚ) = 2 ^ b) → 2 * a = 2 ^ b := by
    intro a b h
    exact_mod_cast h
  rcases hQ with ⟨hQ1, h2r, hev⟩ | ⟨hQ1, h2r, hev⟩
  · have h2rq : 2 * (r : ℚ) ≤ 2 ^ sh := by exact_mod_cast h2r
    rw [hQ1] at d1 d2 d3 d4 ⊢
    have hpos : 0 < (Float64.mk ((if v < 0 then 1 else 0) * 2 ^ 63 + E * 2 ^ 52 +
        (q - 2 ^ 52))).magnitude := by
      rw [d3]; exact mul_pos hqpos hP
    refine isNearestEven_of_magnitude _ v d1 d2 hpos hv
      (fun g => ?_) (fun g hne heq => ?_)
    · rw [d3, habs, hmq]
      exact (nearest_of_gap _ _ _ _ (hgap g)).1 hr0 h2rq
    · rw [d3] at hne heq
      rw [habs, hmq] at heq
      have := (nearest_of_gap _ _ _ _ (hgap g)).2.2.1 hr0 h2rq hne heq
      rw [d4]
      exact hev (hcast _ _ this)
  · have h2rq : (2 : ℚ) ^ sh ≤ 2 * (r : ℚ) := by exact_mod_cast h2r
    rw [hQ1] at d1 d2 d3 d4 ⊢
    have hQq : ((q + 1 : ℕ) : ℚ) * 2 ^ sh = (q : ℚ) * 2 ^ sh + 2 ^ sh := by
      push_cast; ring
    rw [hQq] at d3
    have hpos : 0 < (Float64.mk ((if v < 0 then 1 else 0) * 2 ^ 63 + E * 2 ^ 52 +
        (q + 1 - 2 ^ 52))).magnitude := by
      rw [d3]; linarith [mul_pos hqpos hP]
    refine isNearestEven_of_magnitude _ v d1 d2 hpos hv
      (fun g => ?_) (fun g hne heq => ?_)
    · rw [d3, habs, hmq]
      exact (nearest_of_gap _ _ _ _ (hgap g)).2.1 hrP h2rq
    · rw [d3] at hne heq
      rw [habs, hmq] at heq
      have := (nearest_of_gap _ _ _ _ (hgap g)).2.2.2 hrP h2rq hne heq
      rw [d4]
      exact hev (hcast _ _ this)

theorem isNearestEven_large (v : Int) (hv : v ≠ 0) (hlo : -2 ^ 63 ≤ v) (hhi : v < 2 ^ 63)
    (he : ¬ topBit 64 v.natAbs ≤ 52) :
    IsNearestEven (float64OfInt64 v) v := by
  obtain ⟨hm0, hm64, habs⟩ := natAbs_facts v hv hlo hhi
  obtain ⟨hb1, hb2⟩ := topBit_spec 64 v.natAbs hm0 hm64
  rw [float64OfInt64_large v hv he]
  generalize v.natAbs = m at *
  generalize topBit 64 m = e at *
  have he64 : e < 64 := by
    by_contra hcon
    have : 2 ^ 64 ≤ 2 ^ e := Nat.pow_le_pow_right (by norm_num) (by omega)
    omega
  obtain ⟨sh, hsh⟩ : ∃ sh, e = sh + 1 + 52 := ⟨e - 53, by omega⟩
  subst hsh
  have e1 : sh + 1 + 52 - 52 = sh + 1 := by omega
  have e2 : sh + 1 + 52 - 52 - 1 = sh := by omega
  simp only [e1, Nat.add_sub_cancel]
  have hpow : 2 ^ (sh + 1 + 52) = 2 ^ 52 * 2 ^ (sh + 1) := by
    rw [show sh + 1 + 52 = 52 + (sh + 1) by omega, pow_add]
  have hpow2 : 2 ^ (sh + 1 + 52 + 1) = 2 ^ 53 * 2 ^ (sh + 1) := by
    rw [show sh + 1 + 52 + 1 = 53 + (sh + 1) by omega, pow_add]
  have hPpos : 0 < 2 ^ (sh + 1) := Nat.pow_pos (by norm_num)
  have hq1 : 2 ^ 52 ≤ m / 2 ^ (sh + 1) := by
    rw [Nat.le_div_iff_mul_le hPpos, ← hpow]; exact hb1
  have hq2 : m / 2 ^ (sh + 1) < 2 ^ 53 := by
    rw [Nat.div_lt_iff_lt_mul hPpos, ← hpow2]; exact hb2
  have hr : m % 2 ^ (sh + 1) < 2 ^ (sh + 1) := Nat.mod_lt _ hPpos
  have hm : m = m / 2 ^ (sh + 1) * 2 ^ (sh + 1) + m % 2 ^ (sh + 1) :=
    (Nat.div_add_mod' m (2 ^ (sh + 1))).symm
  have hhalf : 2 ^ (sh + 1) = 2 * 2 ^ sh := by rw [pow_succ]; ring
  apply isNearestEven_rounded v hv m (m / 2 ^ (sh + 1)) (m % 2 ^ (sh + 1)) (sh + 1) _
    (sh + 1 + 52 + 1023) habs hm hr hq1 hq2 (by omega) (by omega) (by push_cast; ring)
  generalize m / 2 ^ (sh + 1) = q at *
  generalize m % 2 ^ (sh + 1) = r at *
  rw [hhalf]
  generalize 2 ^ sh = h at *
  split_ifs with hc
  · right
    refine ⟨rfl, by omega, fun h2 => ?_⟩
    omega
  · left
    refine ⟨rfl, by omega, fun h2 => ?_⟩
    omega


theorem toRat_of_magnitude (f : Float64) (v : Int)
    (hsign : f.sign = if v < 0 then 1 else 0) (hmag : f.magnitude = abs (v : ℚ)) :
    f.toRat = v := by
  unfold Float64.toRat
  by_cases hneg : v < 0
  · have hq : (v : ℚ) < 0 := by exact_mod_cast hneg
    rw [hsign, if_pos hneg, if_pos (by norm_num), hmag, abs_of_neg hq, neg_neg]
  · have hq : (0 : ℚ) ≤ v := by exact_mod_cast (not_lt.1 hneg)
    rw [hsign, if_neg hneg, if_neg (by norm_num), hmag, abs_of_nonneg hq]

theorem float64OfInt64_nearest (v : Int) (hlo : -2 ^ 63 ≤ v) (hhi : v < 2 ^ 63) :
    IsNearestEven (float64OfInt64 v) v := by
  by_cases hv : v = 0
  · rw [hv]; exact isNearestEven_zero
  · by_cases he : topBit 64 v.natAbs ≤ 52
    · exact (isNearestEven_small v hv hlo hhi he).1
    · exact isNearestEven_large v hv hlo hhi he

theorem float64OfInt64_exact (v : Int) (hb : |v| ≤ 2 ^ 53) :
    (float64OfInt64 v).toRat = v := by
  have hlo : -2 ^ 63 ≤ v := by
    have := (abs_le.1 hb).1
    omega
  have hhi : v < 2 ^ 63 := by
    have := (abs_le.1 hb).2
    omega
  have hnear := float64OfInt64_nearest v hlo hhi
  -- the pattern that denotes `v`
  have hrep : ∃ g : Float64, g.isFinite = true ∧ g.toRat = v := by
    by_cases hv : v = 0
    · refine ⟨float64OfInt64 0, isNearestEven_zero.1, ?_⟩
      rw [hv]
      exact toRat_of_magnitude _ 0 isNearestEven_zero.2.1 (by
        have hbits : float64OfInt64 0 = ⟨0⟩ := rfl
        obtain ⟨_, _, h3, h4⟩ := fields_of_bits 0 0 0 (by norm_num) (by norm_num) (by norm_num)
        simp only [Nat.zero_mul, Nat.add_zero] at h3 h4
        rw [hbits]
        simp [Float64.magnitude, h3, h4])
    · by_cases he : topBit 64 v.natAbs ≤ 52
      · obtain ⟨h1, h2⟩ := isNearestEven_small v hv hlo hhi he
        exact ⟨_, h1.1, toRat_of_magnitude _ v h1.2.1 h2⟩
      · -- then `|v| = 2 ^ 53`
        obtain ⟨hm0, hm64, habs⟩ := natAbs_facts v hv hlo hhi
        obtain ⟨hb1, _⟩ := topBit_spec 64 v.natAbs hm0 hm64
        have h53 : 2 ^ 53 ≤ 2 ^ topBit 64 v.natAbs :=
          Nat.pow_le_pow_right (by norm_num) (by omega)
        have hm : v.natAbs = 2 ^ 53 := by
          have : v.natAbs ≤ 2 ^ 53 := by
            have := (abs_le.1 hb)
            omega
          omega
        have hs : (if v < 0 then 1 else 0 : ℕ) ≤ 1 := by split <;> omega
        obtain ⟨d1, d2, d3, _⟩ := decode_normal (if v < 0 then 1 else 0) 1076 (2 ^ 52) hs
          (by norm_num) (by norm_num) (le_refl _) (by norm_num)
        refine ⟨_, d1, toRat_of_magnitude _ v d2 ?_⟩
        rw [d3, habs, hm]
        norm_num
  obtain ⟨g, hg1, hg2⟩ := hrep
  have h := hnear.2.2.1 g hg1
  rw [hg2, sub_self, abs_zero] at h
  have h0 : |(float64OfInt64 v).toRat - (v : ℚ)| = 0 := le_antisymm h (abs_nonneg _)
  rw [abs_eq_zero, sub_eq_zero] at h0
  exact h0


/-! ## Properties of the translation -/

theorem foldl_goAppend {α β : Type} (f : α → β) (l : List α) :
    ∀ acc : List β,
      l.foldl (fun s a => goAppend s (f a)) (some acc) = some (acc ++ l.map f) := by
  induction l with
  | nil => intro acc; simp
  | cons a l ih =>
    intro acc
    have hstep : goAppend (some acc) (f a) = some (acc ++ [f a]) := rfl
    rw [List.foldl_cons, hstep, ih]
    simp

theorem dimensionsFromTags_eq_map (tags : List tag.Tag) :
    dimensionsFromTags tags =
      some (tags.map fun t => { Name := some t.Key.name, Value := some t.Value }) := by
  have h := foldl_goAppend
    (fun t : tag.Tag =>
      ({ Name := awsPtr t.Key.Name, Value := awsPtr t.Value } : cloudwatch.Dimension))
    tags []
  simpa [dimensionsFromTags, awsPtr, tag.Key.Name] using h

theorem buildMetricData_eq_map (vd : view.Data) :
    buildMetricData vd = some (vd.Rows.map fun row => (buildMetricDataRow vd.View row).1) := by
  have h := foldl_goAppend (fun row : view.Row => (buildMetricDataRow vd.View row).1) vd.Rows []
  simpa [buildMetricData] using h

/-- Claim C1. For every view and every row holding `CountData`, `SumData` or
`LastValueData`, `buildMetricDataRow` returns a nil error and one metric datum:
its name is the sanitized view name, its unit is `None`, its dimensions are
`dimensionsFromTags` of the row's tags, and its value is, for a count (an
`int64`), the count converted to `float64`, that is the finite binary64
number nearest to the count with ties to even, equal to the count itself when
the count is at most `2^53` in magnitude, and for a sum or a last value that
very `float64`. -/
theorem buildMetricDataRow_supported (vd : view.View) (tags : List tag.Tag) (count : Int)
    (hlo : -2 ^ 63 ≤ count) (hhi : count < 2 ^ 63) :
    (∃ value : Float64,
      buildMetricDataRow vd { Tags := tags, Data := .CountData count } =
        (some { MetricName := some (sanitize vd.Name), Unit := some "None",
                Value := some value,
                Dimensions := dimensionsFromTags tags }, none) ∧
      IsNearestEven value count ∧
      (|count| ≤ 2 ^ 53 → value.toRat = count)) ∧
    (∀ sum : Float64,
      buildMetricDataRow vd { Tags := tags, Data := .SumData sum } =
        (some { MetricName := some (sanitize vd.Name), Unit := some "None",
                Value := some sum,
                Dimensions := dimensionsFromTags tags }, none)) ∧
    (∀ last : Float64,
      buildMetricDataRow vd { Tags := tags, Data := .LastValueData last } =
        (some { MetricName := some (sanitize vd.Name), Unit := some "None",
                Value := some last,
                Dimensions := dimensionsFromTags tags }, none)) :=
  ⟨⟨float64OfInt64 count, rfl, float64OfInt64_nearest count hlo hhi,
      float64OfInt64_exact count⟩,
    fun _ => rfl, fun _ => rfl⟩

/-- The count `2^53 + 1`, which lies halfway between two binary64 numbers, is
given the even neighbour `2^53`; the count one is given the number one. -/
theorem buildMetricDataRow_supported_witness :
    (-2 ^ 63 ≤ (9007199254740993 : Int) ∧ (9007199254740993 : Int) < 2 ^ 63) ∧
    float64OfInt64 9007199254740993 = ⟨0x4340000000000000⟩ ∧
    (∃ value : Float64,
      buildMetricDataRow { Name := "foo", Aggregation := none }
          { Tags := [testTag], Data := .CountData 9007199254740993 } =
        (some { MetricName := some (sanitize "foo"), Unit := some "None",
                Value := some value,
                Dimensions := dimensionsFromTags [testTag] }, none) ∧
      IsNearestEven value 9007199254740993) ∧
    (∃ value : Float64,
      buildMetricDataRow { Name := "foo", Aggregation := none }
          { Tags := [testTag], Data := .CountData 1 } =
        (some { MetricName := some (sanitize "foo"), Unit := some "None",
                Value := some value,
                Dimensions := dimensionsFromTags [testTag] }, none) ∧
      value.toRat = (1 : Int)) :=
  ⟨⟨by decide, by decide⟩, by decide,
    (buildMetricDataRow_supported { Name := "foo", Aggregation := none } [testTag]
      9007199254740993 (by decide) (by decide)).1.imp fun _ h => ⟨h.1, h.2.1⟩,
    (buildMetricDataRow_supported { Name := "foo", Aggregation := none } [testTag]
      1 (by decide) (by decide)).1.imp fun _ h => ⟨h.1, h.2.2 (by decide)⟩⟩

theorem ExportView_of_nil_error {ω : Type} (ce : cloudWatchExporter ω) (vd : view.Data) (w : ω)
    (h : (ce.cwapi.PutMetricData
      { Namespace := some ce.opts.Namespace, MetricData := buildMetricData vd } w).1 = none) :
    ExportView ce vd w = (ce.cwapi.PutMetricData
      { Namespace := some ce.opts.Namespace, MetricData := buildMetricData vd } w).2 := by
  unfold ExportView putMetricsFromView
  generalize ce.cwapi.PutMetricData _ w = r at h ⊢
  obtain ⟨err, w1⟩ := r
  simp only at h
  subst h
  cases ce.opts.OnError <;> rfl

theorem ExportView_of_error {ω : Type} (ce : cloudWatchExporter ω) (vd : view.Data) (w : ω)
    (onError : GoError → ω → ω) (e : GoError) (hcb : ce.opts.OnError = some onError)
    (h : (ce.cwapi.PutMetricData
      { Namespace := some ce.opts.Namespace, MetricData := buildMetricData vd } w).1 = some e) :
    ExportView ce vd w = onError e (ce.cwapi.PutMetricData
      { Namespace := some ce.opts.Namespace, MetricData := buildMetricData vd } w).2 := by
  unfold ExportView putMetricsFromView
  generalize ce.cwapi.PutMetricData _ w = r at h ⊢
  obtain ⟨err, w1⟩ := r
  simp only at h
  subst h
  rw [hcb]

/-- Claim C2. With the recording client of the tests, which returns no error,
`ExportView` issues exactly one `PutMetricData` request: it carries the
exporter's namespace and `buildMetricData vd`, and is appended to the recorded
requests.  For the snapshot `foo` with one row of value 1 tagged
`test=testvalue` and namespace `bar`, the recorded request is the expected one
for `CountData`, `SumData` and `LastValueData` alike. -/
theorem ExportView_mockedReceiveMsgs :
    (∀ (opts : Options (Slice cloudwatch.PutMetricDataInput)) (vd : view.Data)
        (requests : Slice cloudwatch.PutMetricDataInput),
      ExportView { opts := opts, cwapi := mockedReceiveMsgs } vd requests =
          goAppend requests
            { Namespace := some opts.Namespace, MetricData := buildMetricData vd } ∧
        ExportView { opts := opts, cwapi := mockedReceiveMsgs } vd (some []) =
          some [{ Namespace := some opts.Namespace, MetricData := buildMetricData vd }] ∧
        callsOfExportView { opts := opts, cwapi := mockedReceiveMsgs } vd requests =
          [Call.PutMetricData
            { Namespace := some opts.Namespace, MetricData := buildMetricData vd }]) ∧
      ExportView testExporter (testViewData (.CountData 1)) (some []) = some [testExpected] ∧
      ExportView testExporter (testViewData (.SumData float64One)) (some []) =
        some [testExpected] ∧
      ExportView testExporter (testViewData (.LastValueData float64One)) (some []) =
        some [testExpected] := by
  refine ⟨fun opts vd requests => ⟨?_, ?_, ?_⟩, by decide, by decide, by decide⟩
  · exact ExportView_of_nil_error { opts := opts, cwapi := mockedReceiveMsgs } vd requests rfl
  · exact ExportView_of_nil_error { opts := opts, cwapi := mockedReceiveMsgs } vd (some []) rfl
  · unfold callsOfExportView
    rw [ExportView_of_nil_error _ _ _ rfl]
    rfl

/-- Claim C3, evaluated on the code. For a snapshot whose only row holds a
distribution, `buildMetricData` returns a list of length one whose entry is
nil, although no row of the snapshot is a Count, Sum or LastValue row. -/
theorem buildMetricData_distribution_row :
    buildMetricData distributionViewData = some [none] ∧
      (distributionViewData.Rows.filter fun row => isSupported row.Data).length = 0 := by
  decide

/-- Claim C4, evaluated on the code. For the distribution row of a distribution
view, `buildMetricDataRow` returns no datum and an error, and the message of
that error is one fixed text for every view and every row that reaches the
distribution or the default case: it holds the name of the Go type of
`vd.Aggregation`, not the name of the aggregation kind. -/
theorem buildMetricDataRow_error_text :
    buildMetricDataRow distributionViewData.View
        { Tags := [], Data := .DistributionData emptyDistribution } =
      (none, some ⟨"aggregation *view.Aggregation is not yet supported"⟩) ∧
    (∀ (vd : view.View) (tags : List tag.Tag) (d : view.DistributionData),
      buildMetricDataRow vd { Tags := tags, Data := .DistributionData d } =
        (none, some ⟨"aggregation *view.Aggregation is not yet supported"⟩)) ∧
    (∀ (vd : view.View) (tags : List tag.Tag) (dynamicType : String),
      buildMetricDataRow vd { Tags := tags, Data := .Other dynamicType } =
        (none, some ⟨"aggregation *view.Aggregation is not yet supported"⟩)) :=
  ⟨by decide, fun _ _ _ => rfl, fun _ _ _ => rfl⟩

/-- Claim C8. For every list of tags, `dimensionsFromTags` returns a non-nil
list of the same length whose i-th dimension has the i-th tag's key name as
`Name` and the i-th tag's value as `Value`, unchanged and in the same order;
for no tags the list is empty and non-nil. -/
theorem dimensionsFromTags_spec (tags : List tag.Tag) :
    (∃ dimensions : List cloudwatch.Dimension,
      dimensionsFromTags tags = some dimensions ∧
      dimensions.length = tags.length ∧
      ∀ i : Nat, dimensions[i]? =
        tags[i]?.map fun t => { Name := some t.Key.name, Value := some t.Value }) ∧
    dimensionsFromTags [] = some [] := by
  refine ⟨⟨_, dimensionsFromTags_eq_map tags, by simp, fun i => by simp⟩, rfl⟩

/-! ## Properties of the exporter -/

theorem ExportView_of_no_callback {ω : Type} (ce : cloudWatchExporter ω) (vd : view.Data)
    (w : ω) (hcb : ce.opts.OnError = none) :
    ExportView ce vd w = (ce.cwapi.PutMetricData
      { Namespace := some ce.opts.Namespace, MetricData := buildMetricData vd } w).2 := by
  unfold ExportView putMetricsFromView
  generalize ce.cwapi.PutMetricData _ w = r
  obtain ⟨err, w1⟩ := r
  rw [hcb]
  cases err <;> rfl

theorem traced_world {ω : Type} (ce : cloudWatchExporter ω) (vd : view.Data) (w : ω)
    (log : List Call) : (ExportView (traced ce) vd (w, log)).1 = ExportView ce vd w := by
  cases hr : (ce.cwapi.PutMetricData
      { Namespace := some ce.opts.Namespace, MetricData := buildMetricData vd } w).1 with
  | none =>
    rw [ExportView_of_nil_error ce vd w hr, ExportView_of_nil_error (traced ce) vd (w, log) hr]
    rfl
  | some e =>
    cases hcb : ce.opts.OnError with
    | none =>
      rw [ExportView_of_no_callback ce vd w hcb,
        ExportView_of_no_callback (traced ce) vd (w, log) (by simp [traced, hcb])]
      rfl
    | some onError =>
      rw [ExportView_of_error ce vd w onError e hcb hr,
        ExportView_of_error (traced ce) vd (w, log) _ e (by simp [traced, hcb]; rfl) hr]
      rfl

/-- Claim C9. For an exporter with an `OnError` callback configured: when the
client's `PutMetricData` call returns an error, `ExportView` makes that one
call, then calls `OnError` exactly once, with that same error, and returns the
world the callback leaves; when the call returns no error, `ExportView` makes
that one call, does not call `OnError`, and returns. -/
theorem ExportView_onError {ω : Type} (ce : cloudWatchExporter ω) (vd : view.Data) (w : ω)
    (onError : GoError → ω → ω) (hcb : ce.opts.OnError = some onError) :
    (∀ e : GoError,
      (ce.cwapi.PutMetricData
        { Namespace := some ce.opts.Namespace, MetricData := buildMetricData vd } w).1 = some e →
      callsOfExportView ce vd w =
          [Call.PutMetricData
              { Namespace := some ce.opts.Namespace, MetricData := buildMetricData vd },
            Call.OnError e] ∧
        ExportView ce vd w = onError e (ce.cwapi.PutMetricData
          { Namespace := some ce.opts.Namespace, MetricData := buildMetricData vd } w).2) ∧
    ((ce.cwapi.PutMetricData
        { Namespace := some ce.opts.Namespace, MetricData := buildMetricData vd } w).1 = none →
      callsOfExportView ce vd w =
          [Call.PutMetricData
              { Namespace := some ce.opts.Namespace, MetricData := buildMetricData vd }] ∧
        ExportView ce vd w = (ce.cwapi.PutMetricData
          { Namespace := some ce.opts.Namespace, MetricData := buildMetricData vd } w).2) := by
  have hcb' : (traced ce).opts.OnError =
      some fun e wl => (onError e wl.1, wl.2 ++ [Call.OnError e]) := by
    simp [traced, hcb]
  refine ⟨fun e he => ⟨?_, ExportView_of_error ce vd w onError e hcb he⟩,
    fun hn => ⟨?_, ExportView_of_nil_error ce vd w hn⟩⟩
  · unfold callsOfExportView
    rw [ExportView_of_error (traced ce) vd (w, []) _ e hcb' he]
    rfl
  · unfold callsOfExportView
    rw [ExportView_of_nil_error (traced ce) vd (w, []) hn]
    rfl

/-- A client failing with `throttled` and a client that succeeds, each under a
callback that counts its invocations: one request and one callback call in the
first run, one request and no callback call in the second. -/
theorem ExportView_onError_witness :
    (callsOfExportView (countingExporter (failingClient ⟨"throttled"⟩))
          (testViewData (.CountData 1)) 0 =
        [Call.PutMetricData testExpected, Call.OnError ⟨"throttled"⟩] ∧
      ExportView (countingExporter (failingClient ⟨"throttled"⟩))
          (testViewData (.CountData 1)) 0 = 1) ∧
    (callsOfExportView (countingExporter succeedingClient) (testViewData (.CountData 1)) 0 =
        [Call.PutMetricData testExpected] ∧
      ExportView (countingExporter succeedingClient) (testViewData (.CountData 1)) 0 = 0) :=
  ⟨(ExportView_onError (countingExporter (failingClient ⟨"throttled"⟩))
      (testViewData (.CountData 1)) 0 (fun _ n => n + 1) rfl).1 ⟨"throttled"⟩ rfl,
   (ExportView_onError (countingExporter succeedingClient)
      (testViewData (.CountData 1)) 0 (fun _ n => n + 1) rfl).2 rfl⟩

/-- Claim C10. When both `UseSharedAwsConfig` and `UseEnvCredentials` are
false, whatever the namespace, region and callback, `New` returns a nil
exporter and a non-nil configuration error, and reaches no SDK entry point:
the world is left as it was and, run against the recording SDK, the log of
session and client creations stays empty. -/
theorem New_without_credential_source :
    (∀ (ω Sess : Type) (sdk : AwsSdk ω Sess) (ns region : String)
        (onError : Option (GoError → ω → ω)) (w : ω),
      New sdk { Namespace := ns, OnError := onError, UseSharedAwsConfig := false,
                UseEnvCredentials := false, Region := region } w =
        (GoResult.returned (none, some noCredentialSource), w)) ∧
    (∀ (ns region : String) (onError : Option (GoError → List SdkCall → List SdkCall)),
      (New recordingSdk { Namespace := ns, OnError := onError, UseSharedAwsConfig := false,
                          UseEnvCredentials := false, Region := region } []).2 = []) :=
  ⟨fun _ _ _ _ _ _ _ => rfl, fun _ _ _ => rfl⟩

/-! ## Further properties of construction -/

/-- Claim C11, as stated, fails: with both credential-source flags set and an
SDK that grants the session, `New` returns a non-nil exporter and a nil error,
after asking for a shared-configuration session and building a client. -/
theorem New_both_flags_returns_exporter :
    bothFlagsOptions.UseSharedAwsConfig = true ∧ bothFlagsOptions.UseEnvCredentials = true ∧
      (returnedExporter (New recordingSdk bothFlagsOptions []).1).isSome = true ∧
      returnedError (New recordingSdk bothFlagsOptions []).1 = none ∧
      (New recordingSdk bothFlagsOptions []).2 =
        [SdkCall.NewSessionWithOptions sharedConfigSessionOptions, SdkCall.cloudwatchNew] := by
  refine ⟨rfl, rfl, rfl, rfl, rfl⟩

/-- Claim C11, amended. `New` returns a configuration error exactly when
neither credential-source flag is set.  Whenever `UseSharedAwsConfig` is set,
`UseEnvCredentials` set or not, `New` asks for a session with the shared
configuration enabled and no region or credentials of its own; if the session
is granted it returns a non-nil exporter holding the options and the client
built from the session, with a nil error, and if not, `session.Must` panics. -/
theorem New_shared_config_first :
    (∀ (ω Sess : Type) (sdk : AwsSdk ω Sess) (opts : Options ω) (w : ω),
      returnedError (New sdk opts w).1 =
        if opts.UseSharedAwsConfig = false ∧ opts.UseEnvCredentials = false then
          some noCredentialSource
        else none) ∧
    (∀ (ω Sess : Type) (sdk : AwsSdk ω Sess) (ns region : String)
        (onError : Option (GoError → ω → ω)) (useEnvCredentials : Bool) (w : ω),
      New sdk { Namespace := ns, OnError := onError, UseSharedAwsConfig := true,
                UseEnvCredentials := useEnvCredentials, Region := region } w =
        match sdk.NewSessionWithOptions sharedConfigSessionOptions w with
        | (.error err, w1) => (GoResult.panicked err, w1)
        | (.ok sess, w1) =>
          (GoResult.returned
            (some { opts := { Namespace := ns, OnError := onError, UseSharedAwsConfig := true,
                              UseEnvCredentials := useEnvCredentials, Region := region }
                    cwapi := (sdk.cloudwatchNew sess w1).1 }, none),
            (sdk.cloudwatchNew sess w1).2)) := by
  have hs : ({ sessionOptionsZero with SharedConfigState := .SharedConfigEnable } :
      SessionOptions) = sharedConfigSessionOptions := rfl
  refine ⟨fun ω Sess sdk opts w => ?_, fun ω Sess sdk ns region onError useEnv w => ?_⟩
  · obtain ⟨ns, onError, shared, env, region⟩ := opts
    have he : ({ sessionOptionsZero with
        Config := { Region := awsPtr region, Credentials := some .NewEnvCredentials } } :
        SessionOptions) = envCredentialsSessionOptions region := rfl
    cases shared <;> cases env
    · rfl
    · simp only [New, he, Bool.false_eq_true, if_false, if_true]
      rcases sdk.NewSessionWithOptions (envCredentialsSessionOptions region) w
        with ⟨r | r, w1⟩ <;> rfl
    · simp only [New, if_true, hs]
      rcases sdk.NewSessionWithOptions sharedConfigSessionOptions w with ⟨r | r, w1⟩ <;> rfl
    · simp only [New, if_true, hs]
      rcases sdk.NewSessionWithOptions sharedConfigSessionOptions w with ⟨r | r, w1⟩ <;> rfl
  · simp only [New, if_true, hs]

/-- Claim C14, evaluated on the code. With environment credentials selected
and an empty region, `New` hands the empty region to the session options,
obtains the session, builds the client, and returns a non-nil exporter with a
nil error. -/
theorem New_env_credentials_empty_region :
    envNoRegionOptions.UseEnvCredentials = true ∧
      envNoRegionOptions.UseSharedAwsConfig = false ∧ envNoRegionOptions.Region = "" ∧
      (returnedExporter (New recordingSdk envNoRegionOptions []).1).isSome = true ∧
      returnedError (New recordingSdk envNoRegionOptions []).1 = none ∧
      (New recordingSdk envNoRegionOptions []).2 =
        [SdkCall.NewSessionWithOptions (envCredentialsSessionOptions ""),
          SdkCall.cloudwatchNew] := by
  refine ⟨rfl, rfl, rfl, rfl, rfl, rfl⟩

/-! ## Further properties of the export -/

theorem calls_of_nil_error {ω : Type} (ce : cloudWatchExporter ω) (vd : view.Data) (w : ω)
    (hn : (ce.cwapi.PutMetricData
      { Namespace := some ce.opts.Namespace, MetricData := buildMetricData vd } w).1 = none) :
    callsOfExportView ce vd w =
      [Call.PutMetricData
        { Namespace := some ce.opts.Namespace, MetricData := buildMetricData vd }] := by
  unfold callsOfExportView
  rw [ExportView_of_nil_error (traced ce) vd (w, []) hn]
  rfl

theorem calls_of_no_callback {ω : Type} (ce : cloudWatchExporter ω) (vd : view.Data) (w : ω)
    (hcb : ce.opts.OnError = none) :
    callsOfExportView ce vd w =
      [Call.PutMetricData
        { Namespace := some ce.opts.Namespace, MetricData := buildMetricData vd }] := by
  unfold callsOfExportView
  rw [ExportView_of_no_callback (traced ce) vd (w, []) (by simp [traced, hcb])]
  rfl

theorem calls_of_error {ω : Type} (ce : cloudWatchExporter ω) (vd : view.Data) (w : ω)
    (onError : GoError → ω → ω) (e : GoError) (hcb : ce.opts.OnError = some onError)
    (he : (ce.cwapi.PutMetricData
      { Namespace := some ce.opts.Namespace, MetricData := buildMetricData vd } w).1 = some e) :
    callsOfExportView ce vd w =
      [Call.PutMetricData
          { Namespace := some ce.opts.Namespace, MetricData := buildMetricData vd },
        Call.OnError e] := by
  have hcb' : (traced ce).opts.OnError =
      some fun e wl => (onError e wl.1, wl.2 ++ [Call.OnError e]) := by
    simp [traced, hcb]
  unfold callsOfExportView
  rw [ExportView_of_error (traced ce) vd (w, []) _ e hcb' he]
  rfl

theorem requestsOf_calls {ω : Type} (ce : cloudWatchExporter ω) (vd : view.Data) (w : ω) :
    requestsOf (callsOfExportView ce vd w) =
      [{ Namespace := some ce.opts.Namespace, MetricData := buildMetricData vd }] := by
  cases hr : (ce.cwapi.PutMetricData
      { Namespace := some ce.opts.Namespace, MetricData := buildMetricData vd } w).1 with
  | none => rw [calls_of_nil_error ce vd w hr]; rfl
  | some e =>
    cases hcb : ce.opts.OnError with
    | none => rw [calls_of_no_callback ce vd w hcb]; rfl
    | some onError => rw [calls_of_error ce vd w onError e hcb hr]; rfl

/-- Claim C12. For a snapshot with zero rows `buildMetricData` returns the
empty non-nil list, and `ExportView` still issues exactly one write request,
which carries the configured namespace and that empty list: so for every
client, and so recorded by the client of the tests. -/
theorem ExportView_zero_rows :
    (∀ v : view.View, buildMetricData { View := v, Rows := [] } = some []) ∧
    (∀ (ω : Type) (ce : cloudWatchExporter ω) (v : view.View) (w : ω),
      requestsOf (callsOfExportView ce { View := v, Rows := [] } w) =
        [{ Namespace := some ce.opts.Namespace, MetricData := some [] }]) ∧
    (∀ (opts : Options (Slice cloudwatch.PutMetricDataInput)) (v : view.View),
      ExportView { opts := opts, cwapi := mockedReceiveMsgs } { View := v, Rows := [] }
          (some []) =
        some [{ Namespace := some opts.Namespace, MetricData := some [] }]) := by
  refine ⟨fun _ => rfl, fun ω ce v w => ?_, fun opts v => ?_⟩
  · exact requestsOf_calls ce { View := v, Rows := [] } w
  · exact ExportView_of_nil_error { opts := opts, cwapi := mockedReceiveMsgs }
      { View := v, Rows := [] } (some []) rfl

/-- Claim C13. Translation errors are dropped by `ExportView`: for every
snapshot, rows that `buildMetricDataRow` rejects included, when the client's
`PutMetricData` call returns no error the calls made are that one request and
nothing else, so `OnError` is not called, whether configured or not. -/
theorem ExportView_drops_translation_errors {ω : Type} (ce : cloudWatchExporter ω)
    (vd : view.Data) (w : ω)
    (hn : (ce.cwapi.PutMetricData
      { Namespace := some ce.opts.Namespace, MetricData := buildMetricData vd } w).1 = none) :
    callsOfExportView ce vd w =
        [Call.PutMetricData
          { Namespace := some ce.opts.Namespace, MetricData := buildMetricData vd }] ∧
      reportedErrors (callsOfExportView ce vd w) = [] ∧
      ExportView ce vd w = (ce.cwapi.PutMetricData
        { Namespace := some ce.opts.Namespace, MetricData := buildMetricData vd } w).2 := by
  refine ⟨calls_of_nil_error ce vd w hn, ?_, ExportView_of_nil_error ce vd w hn⟩
  rw [calls_of_nil_error ce vd w hn]
  rfl

/-- The distribution snapshot, whose only row is rejected with an error,
exported through a succeeding client under a counting callback: one request
holding the nil entry, and the callback count stays at zero. -/
theorem ExportView_drops_translation_errors_witness :
    (buildMetricDataRow distributionViewData.View distributionRow).2 =
        some ⟨"aggregation *view.Aggregation is not yet supported"⟩ ∧
      callsOfExportView (countingExporter succeedingClient) distributionViewData 0 =
        [Call.PutMetricData { Namespace := some "bar", MetricData := some [none] }] ∧
      reportedErrors (callsOfExportView (countingExporter succeedingClient)
        distributionViewData 0) = [] ∧
      ExportView (countingExporter succeedingClient) distributionViewData 0 = 0 :=
  ⟨by decide,
    ExportView_drops_translation_errors (countingExporter succeedingClient)
      distributionViewData 0 rfl⟩

/-- Claim C18. With no `OnError` callback configured and a client whose
`PutMetricData` call returns an error, `ExportView` issues exactly one request,
calls nothing else, and returns with the world as the failed call left it: the
error is dropped. -/
theorem ExportView_without_callback {ω : Type} (ce : cloudWatchExporter ω) (vd : view.Data)
    (w : ω) (e : GoError) (hcb : ce.opts.OnError = none)
    (_he : (ce.cwapi.PutMetricData
      { Namespace := some ce.opts.Namespace, MetricData := buildMetricData vd } w).1 = some e) :
    callsOfExportView ce vd w =
        [Call.PutMetricData
          { Namespace := some ce.opts.Namespace, MetricData := buildMetricData vd }] ∧
      ExportView ce vd w = (ce.cwapi.PutMetricData
        { Namespace := some ce.opts.Namespace, MetricData := buildMetricData vd } w).2 :=
  ⟨calls_of_no_callback ce vd w hcb, ExportView_of_no_callback ce vd w hcb⟩

/-- A client failing with `throttled` under an exporter without callback: one
request is made and the world stays as it was. -/
theorem ExportView_without_callback_witness :
    callsOfExportView (silentExporter (failingClient ⟨"throttled"⟩))
          (testViewData (.CountData 1)) 7 =
        [Call.PutMetricData testExpected] ∧
      ExportView (silentExporter (failingClient ⟨"throttled"⟩))
          (testViewData (.CountData 1)) 7 = 7 :=
  ExportView_without_callback (silentExporter (failingClient ⟨"throttled"⟩))
    (testViewData (.CountData 1)) 7 ⟨"throttled"⟩ rfl rfl

/-! ## Further properties of the translation -/

theorem datum_isSome (v : view.View) (row : view.Row) :
    (buildMetricDataRow v row).1.isSome = isSupported row.Data := by
  obtain ⟨tags, data⟩ := row
  cases data <;> rfl

theorem error_isNone (v : view.View) (row : view.Row) :
    (buildMetricDataRow v row).2.isNone = isSupported row.Data := by
  obtain ⟨tags, data⟩ := row
  cases data <;> rfl

theorem reduceOption_data (v : view.View) (rows : List view.Row) :
    ((rows.map fun r => (buildMetricDataRow v r).1).reduceOption).map some =
      (rows.filter fun r => isSupported r.Data).map fun r => (buildMetricDataRow v r).1 := by
  induction rows with
  | nil => rfl
  | cons r rs ih =>
    have hs := datum_isSome v r
    cases hd : (buildMetricDataRow v r).1 with
    | none =>
      rw [hd] at hs
      have hf : isSupported r.Data = false := by simpa using hs.symm
      simp only [List.map_cons, hd, List.reduceOption_cons_of_none, List.filter_cons, hf,
        Bool.false_eq_true, if_false]
      exact ih
    | some d =>
      rw [hd] at hs
      have hf : isSupported r.Data = true := by simpa using hs.symm
      simp only [List.map_cons, hd, List.reduceOption_cons_of_some, List.filter_cons, hf,
        if_true]
      rw [ih]

/-- Claim C15. Rows are translated independently: for a row holding
`CountData`, `SumData` or `LastValueData`, whatever rows stand before and after
it, supported or not, the entry `buildMetricData` produces at the row's
position is the datum `buildMetricDataRow` returns for that row alone; and the
non-nil records of the list are the data of the supported rows, one each, in
the rows' original order. -/
theorem buildMetricData_row_independent (v : view.View) (before after : List view.Row)
    (row : view.Row) (hs : isSupported row.Data = true) :
    ∃ (l : List (Option cloudwatch.MetricDatum)) (d : cloudwatch.MetricDatum),
      buildMetricData { View := v, Rows := before ++ row :: after } = some l ∧
      buildMetricDataRow v row = (some d, none) ∧
      l[before.length]? = some (some d) ∧
      l.reduceOption.map some =
        ((before ++ row :: after).filter fun r => isSupported r.Data).map
          fun r => (buildMetricDataRow v r).1 := by
  have h1 := datum_isSome v row
  have h2 := error_isNone v row
  rw [hs] at h1 h2
  obtain ⟨d, hd⟩ := Option.isSome_iff_exists.1 h1
  have he : (buildMetricDataRow v row).2 = none := by simpa using h2
  refine ⟨_, d, buildMetricData_eq_map _, Prod.ext hd he, ?_, reduceOption_data v _⟩
  rw [List.map_append, List.map_cons, hd]
  have hlen : (before.map fun r => (buildMetricDataRow v r).1).length = before.length :=
    List.length_map _ _
  rw [← hlen, List.getElem?_append_right (Nat.le_refl _), Nat.sub_self]
  simp

/-- A count row between a distribution row and a row of unknown data: its
datum stands at position one, and it is the only non-nil record. -/
theorem buildMetricData_row_independent_witness :
    ∃ (l : List (Option cloudwatch.MetricDatum)) (d : cloudwatch.MetricDatum),
      buildMetricData
          { View := { Name := "foo", Aggregation := none }
            Rows := [distributionRow] ++ countRow :: [otherRow] } = some l ∧
      buildMetricDataRow { Name := "foo", Aggregation := none } countRow = (some d, none) ∧
      l[[distributionRow].length]? = some (some d) ∧
      l.reduceOption.map some =
        (([distributionRow] ++ countRow :: [otherRow]).filter
          fun r => isSupported r.Data).map
          fun r => (buildMetricDataRow { Name := "foo", Aggregation := none } r).1 :=
  buildMetricData_row_independent { Name := "foo", Aggregation := none }
    [distributionRow] [otherRow] countRow rfl

/-- Claim C16. For every snapshot `buildMetricData` returns a list with one
entry per row: the i-th entry is the datum of row i when the row holds
`CountData`, `SumData` or `LastValueData`, a datum that is then not nil, and
is nil when the row holds `DistributionData` or anything else. -/
theorem buildMetricData_entries (vd : view.Data) :
    ∃ l : List (Option cloudwatch.MetricDatum),
      buildMetricData vd = some l ∧
      l.length = vd.Rows.length ∧
      (∀ i : Nat, l[i]? = vd.Rows[i]?.map fun row =>
        if isSupported row.Data then (buildMetricDataRow vd.View row).1 else none) ∧
      (∀ row : view.Row, isSupported row.Data = true →
        ∃ d, buildMetricDataRow vd.View row = (some d, none)) := by
  refine ⟨_, buildMetricData_eq_map vd, by simp, fun i => ?_, fun row hs => ?_⟩
  · rw [List.getElem?_map]
    cases vd.Rows[i]? with
    | none => rfl
    | some row =>
      have h := datum_isSome vd.View row
      cases hsup : isSupported row.Data with
      | true => simp [hsup]
      | false =>
        rw [hsup] at h
        have : (buildMetricDataRow vd.View row).1 = none := by simpa using h
        simp [this]
  · have h1 := datum_isSome vd.View row
    have h2 := error_isNone vd.View row
    rw [hs] at h1 h2
    obtain ⟨d, hd⟩ := Option.isSome_iff_exists.1 h1
    exact ⟨d, Prod.ext hd (by simpa using h2)⟩

/-! ## Further properties of `sanitize` -/

theorem replaceAll_chars (l : List Char) :
    ∀ b : Bool, ∀ c ∈ replaceAll ['_'] b l, c.isAlphanum = true ∨ c = '_' := by
  induction l with
  | nil => intro b c hc; simp [replaceAll] at hc
  | cons a as ih =>
    intro b c hc
    by_cases ha : inClass a = true
    · cases b
      · simp only [replaceAll, ha, if_true, Bool.false_eq_true, if_false,
          List.singleton_append, List.mem_cons] at hc
        rcases hc with hc | hc
        · exact Or.inr hc
        · exact ih true c hc
      · simp only [replaceAll, ha, if_true] at hc
        exact ih true c hc
    · simp only [replaceAll, ha, if_false] at hc
      cases List.mem_cons.1 hc with
      | inl hc =>
        left
        rw [hc]
        have := inClass_eq_not_isAlphanum a
        cases h : a.isAlphanum
        · rw [h] at this; exact absurd this ha
        · rfl
      | inr hc => exact ih false c hc

theorem hasAdjacentUnderscores_cons (a : Char) (l : List Char)
    (h : a ≠ '_' ∨ l.head? ≠ some '_') (hl : hasAdjacentUnderscores l = false) :
    hasAdjacentUnderscores (a :: l) = false := by
  cases l with
  | nil => rfl
  | cons b bs =>
    simp only [hasAdjacentUnderscores, hl, Bool.or_false, Bool.and_eq_false_imp, beq_iff_eq]
    intro ha
    rcases h with h | h
    · exact absurd ha h
    · simpa using h

theorem replaceAll_no_adjacent (l : List Char) :
    hasAdjacentUnderscores (replaceAll ['_'] false l) = false ∧
      hasAdjacentUnderscores (replaceAll ['_'] true l) = false ∧
      (replaceAll ['_'] true l).head? ≠ some '_' := by
  induction l with
  | nil => simp [replaceAll, hasAdjacentUnderscores]
  | cons a as ih =>
    obtain ⟨ih1, ih2, ih3⟩ := ih
    by_cases ha : inClass a = true
    · refine ⟨?_, ?_, ?_⟩
      · simp only [replaceAll, ha, if_true, Bool.false_eq_true, if_false, List.singleton_append]
        exact hasAdjacentUnderscores_cons _ _ (Or.inr ih3) ih2
      · simpa only [replaceAll, ha, if_true] using ih2
      · simpa only [replaceAll, ha, if_true] using ih3
    · have hne : a ≠ '_' := by
        intro h
        rw [h] at ha
        exact ha inClass_underscore
      refine ⟨?_, ?_, ?_⟩
      · simp only [replaceAll, ha, if_false]
        exact hasAdjacentUnderscores_cons _ _ (Or.inl hne) ih1
      · simp only [replaceAll, ha, if_false]
        exact hasAdjacentUnderscores_cons _ _ (Or.inl hne) ih1
      · simp only [replaceAll, ha, if_false, List.head?_cons]
        intro h
        exact hne (Option.some.inj h)

/-- Claim C17. For every string, every character of its sanitized form is an
ASCII letter, an ASCII digit or an underscore, and no two underscores of the
sanitized form stand next to each other. -/
theorem sanitize_charset (x : String) :
    (∀ c ∈ (sanitize x).data, c.isAlphanum = true ∨ c = '_') ∧
      hasAdjacentUnderscores (sanitize x).data = false :=
  ⟨replaceAll_chars x.data false, (replaceAll_no_adjacent x.data).1⟩

end Exporter
